import Mathlib

/-!
Verification development for the flake-pilot repository.

The definitions below are shallow embeddings of the Rust sources:
  - src/common/src/command.rs   (subprocess runner)
  - src/common/src/error.rs     (error kinds and exit-code forwarding)
  - src/common/src/lookup.rs    (pilot option tokenization)
  - src/podman-pilot/src/podman.rs      (container create / provisioning / GC)
  - src/firecracker-pilot/src/firecracker.rs (VM create / provisioning / GC,
    boot-args construction, identity derivation)
  - src/podman-pilot/src/config.rs      (config merge pipeline)
  - src/firecracker-pilot/guestvm-tools/sci/src/main.rs (guest protocol parsing)

Machine integers are modelled as Int/Nat with explicit truncation where the
source truncates; fallible operations return Option/Except; the ambient
filesystem and subprocess effects are modelled by explicit state records and
oracles giving each external operation's outcome.
-/

namespace Flakes

/-! ## Basic string helpers

Rust string primitives used by the sources, re-implemented over List Char so
that every definition reduces by evaluation. -/

/-- Rust char-prefix test: s.starts_with(c). -/
def startsWithChar (c : Char) (s : String) : Bool :=
  match s.data with
  | [] => false
  | c0 :: _ => c0 = c

/-- List prefix test (pattern first): p is a prefix of l. -/
def listIsPref {α : Type} [DecidableEq α] : List α → List α → Bool
  | [], _ => true
  | _ :: _, [] => false
  | p :: ps, c :: cs => p = c && listIsPref ps cs

/-- Rust string-prefix test: s.starts_with(p). -/
def strStartsWith (p s : String) : Bool :=
  listIsPref p.data s.data

/-- Rust str::rsplit_once(sep): split at the LAST occurrence of sep,
returning (before, after); None when sep does not occur. -/
def rsplitOnce {α : Type} [DecidableEq α] (sep : α) : List α → Option (List α × List α)
  | [] => none
  | c :: cs =>
    match rsplitOnce sep cs with
    | some (l, r) => some (c :: l, r)
    | none => if c = sep then some ([], cs) else none

/-- Rust str::split(sep) collected to a Vec: adjacent separators produce empty
fields, the empty input produces one empty field. -/
def splitSep {α : Type} [DecidableEq α] (sep : α) : List α → List (List α)
  | [] => [[]]
  | c :: cs =>
    if c = sep then
      [] :: splitSep sep cs
    else
      match splitSep sep cs with
      | [] => [[c]]
      | p :: ps => (c :: p) :: ps

/-- Vec::join(sep) over the fields produced by splitSep. -/
def joinSep {α : Type} (sep : α) : List (List α) → List α
  | [] => []
  | [p] => p
  | p :: ps => p ++ sep :: joinSep sep ps

/-- Rust str::trim_end restricted to the ASCII whitespace actually sent on the
wire: drop trailing whitespace characters. -/
def trimEndChars (cs : List Char) : List Char :=
  (cs.reverse.dropWhile (fun c => c.isWhitespace)).reverse

/-! ## src/common/src/command.rs -/

/-- std::process::ExitStatus: some code when the child exited, none when it was
terminated by a signal. -/
structure ExitStatus where
  code : Option Int
deriving DecidableEq, Repr

/-- ExitStatus::success(): the child exited with code 0. -/
def ExitStatus.success (s : ExitStatus) : Bool :=
  s.code = some 0

/-- std::process::Output captured by Command::output(). -/
structure Output where
  status : ExitStatus
  stdout : String
  stderr : String
deriving DecidableEq, Repr

/-- ProcessError from command.rs: the spawn-level OS error (abstracted by its
message) or a non-zero exit carrying the full captured output. -/
inductive ProcessError where
  | osError (message : String)
  | executionError (output : Output)
deriving DecidableEq, Repr

/-- CommandError from command.rs: a ProcessError together with the argv of the
failed command. -/
structure CommandError where
  base : ProcessError
  args : List String
deriving DecidableEq, Repr

/-- handle_output from command.rs: Ok(output) when the child was spawned and
exited successfully, otherwise a CommandError wrapping either the spawn error
or the non-zero-exit output, with the argv attached. -/
def handle_output (maybe_output : Except String Output) (args : List String) :
    Except CommandError Output :=
  match maybe_output with
  | .ok output =>
    if output.status.success then
      .ok output
    else
      .error ⟨.executionError output, args⟩
  | .error error => .error ⟨.osError error, args⟩

/-! ## src/common/src/error.rs -/

/-- OperationError from error.rs. -/
inductive OperationError where
  | maxTriesExceeded
deriving DecidableEq, Repr

/-- FlakeError from error.rs (the MalformedJson payload abstracted by its
message). -/
inductive FlakeError where
  | commandError (e : CommandError)
  | ioError (message : String)
  | malformedJson (message : String)
  | alreadyRunning
  | operationError (e : OperationError)
deriving DecidableEq, Repr

/-- std::process::ExitCode::FAILURE as a byte value. -/
def exitFailure : Nat := 1

/-- Termination::report for FlakeError: a failed sub command whose status
carries a code forwards that code truncated to one byte (code as u8); every
other error reports ExitCode::FAILURE. -/
def FlakeError.report : FlakeError → Nat
  | .commandError ⟨.executionError output, _⟩ =>
    match output.status.code with
    | some code => (code.emod 256).toNat
    | none => exitFailure
  | _ => exitFailure

/-! ## src/common/src/lookup.rs -/

/-- One step of the HashMap::insert used by get_pilot_run_options, as an
association list: replace the value of an existing key, else append. -/
def hmInsert (m : List (String × String)) (k v : String) : List (String × String) :=
  if m.any (fun p => p.1 = k) then
    m.map (fun p => if p.1 = k then (k, v) else p)
  else
    m ++ [(k, v)]

/-- The contribution of a single argument to the pilot option map in
Lookup::get_pilot_run_options: arguments starting with a percent sign are
split at the last colon via rsplit_once (defaulting to two empty strings);
an empty name keeps the whole argument as key with an empty value. -/
def pilotOptionEntry (arg : String) : Option (String × String) :=
  if startsWithChar '%' arg then
    let nv := (rsplitOnce ':' arg.data).getD ([], [])
    if nv.1 = [] then
      some (arg, "")
    else
      some (⟨nv.1⟩, ⟨nv.2⟩)
  else
    none

/-- Lookup::get_pilot_run_options over the argument list (argv[1..]). -/
def get_pilot_run_options (args : List String) : List (String × String) :=
  args.foldl
    (fun m arg =>
      match pilotOptionEntry arg with
      | some (k, v) => hmInsert m k v
      | none => m)
    []

/-- Lookup get_run cmdline builder over the argument list (argv[1..]): arguments not
starting with an at sign or percent sign are appended to init, with dashes
backslash-escaped when quoting for the kernel commandline. -/
def getRunCmdline (init : List String) (args : List String)
    (quote_for_kernel_cmdline : Bool) : List String :=
  args.foldl
    (fun run arg =>
      if !startsWithChar '@' arg && !startsWithChar '%' arg then
        if quote_for_kernel_cmdline then
          run ++ [⟨arg.data.foldr (fun c acc =>
            if c = '-' then '\\' :: '-' :: acc else c :: acc) []⟩]
        else
          run ++ [arg]
      else
        run)
    init

/-! ## Identity derivation

get_meta_name / get_meta_file_name from firecracker.rs, and the container CID
file path from podman.rs create. -/

/-- get_meta_name from firecracker.rs: the program basename with every
at-prefixed invocation argument appended in order. -/
def get_meta_name (program_name : String) (args : List String) : String :=
  args.foldl
    (fun meta_file arg =>
      if startsWithChar '@' arg then meta_file ++ arg else meta_file)
    program_name

/-- get_meta_file_name from firecracker.rs. -/
def get_meta_file_name (program_name : String) (args : List String)
    (target_dir extensn : String) : String :=
  target_dir ++ "/" ++ get_meta_name program_name args ++ "." ++ extensn

/-- The identity part of the container CID file name built in podman.rs
create: program name, the first at-prefixed argument (or nothing), an
underscore and the caller user name. -/
def podman_cid_identity (program_name : String) (args : List String)
    (user : String) : String :=
  program_name ++ ((args.filter (fun a => startsWithChar '@' a)).head?.getD "")
    ++ "_" ++ user

/-- The container CID file path built in podman.rs create. -/
def container_cid_file (ids_dir program_name : String) (args : List String)
    (user : String) : String :=
  ids_dir ++ "/" ++ podman_cid_identity program_name args user ++ ".cid"

/-! ## src/podman-pilot/src/config.rs: the config merge pipeline

config_from_str parses the concatenated YAML (master file followed by the
fragment files in lexicographic order) through the permissive yaml-rust
reader, re-emits the first document, and parses the emitted text with the
strict serde_yaml schema reader. The top level of the concatenated document
is modelled as the ordered list of its (key, value) entries; the permissive
reader's duplicate handling is the insert of the linked hash map backing
yaml-rust mappings (a duplicate key replaces the stored value in place). -/

/-- One insertion into the linked hash map of the permissive YAML reader: a
duplicate top-level key replaces the stored value in place, a new key is
appended. -/
def lhmInsert {V : Type} (m : List (String × V)) (k : String) (v : V) :
    List (String × V) :=
  if m.any (fun p => p.1 = k) then
    m.map (fun p => if p.1 = k then (k, v) else p)
  else
    m ++ [(k, v)]

/-- The permissive load of the concatenated document: fold the top-level
entries in document order through the duplicate-removing insert. -/
def permissiveLoad {V : Type} (doc : List (String × V)) : List (String × V) :=
  doc.foldl (fun m p => lhmInsert m p.1 p.2) []

/-- Emit + strict parse observed at one top-level key: the emitter writes the
retained entries in order, and on the duplicate-free emitted document the
strict schema reader sees each key's single value, i.e. the association
lookup. -/
def strictParse {V : Type} (doc : List (String × V)) (k : String) : Option V :=
  (doc.find? (fun p => p.1 = k)).map (fun p => p.2)

/-- The duplicate-key semantics of config_from_str observed at key k. -/
def config_from_str_key {V : Type} (doc : List (String × V)) (k : String) :
    Option V :=
  strictParse (permissiveLoad doc) k

/-- The value of the last occurrence of key k across the concatenation. -/
def lastOccurrence {V : Type} (doc : List (String × V)) (k : String) : Option V :=
  (doc.reverse.find? (fun p => p.1 = k)).map (fun p => p.2)

/-! ## src/firecracker-pilot/guestvm-tools/sci/src/main.rs: protocol parsing -/

/-- Rust u32 parse of a token: an optional leading plus sign, then at least
one ASCII digit, with the value below 2^32. -/
def parseU32 (s : List Char) : Option Nat :=
  let digits := match s with
    | '+' :: rest => rest
    | _ => s
  if digits ≠ [] ∧ digits.all (fun c => c.isDigit) then
    let n := digits.foldl (fun acc c => acc * 10 + (c.toNat - '0'.toNat)) 0
    if n < 2 ^ 32 then some n else none
  else
    none

/-- The classification performed for each accepted vsock connection in the
sci main loop: the payload is truncated at its trim_end length; an empty
result is the pilot's handshake probe and is skipped (none); otherwise the
string is split on ASCII space, the popped last token is parsed as a u32
exec port (a parse failure leaves the port at its initial 0) and the
remaining tokens joined by spaces form the command to execute. -/
def sciHandleRequest (payload : List Char) : Option (List Char × Nat) :=
  let call_str := trimEndChars payload
  if call_str = [] then
    none
  else
    let call_stack := splitSep ' ' call_str
    -- call_stack.pop().unwrap(): the stack is provably nonempty (see
    -- splitSep_ne_nil below), so the default branch is unreachable
    let exec_port := call_stack.getLast?.getD []
    let exec_cmd := joinSep ' ' call_stack.dropLast
    some (exec_cmd, (parseU32 exec_port).getD 0)

/-! ## Instance lifecycle: the create gate (C4)

The early-return / AlreadyRunning decision at the top of create in
podman.rs (lines 169-182) and firecracker.rs (lines 210-228), over an
abstract view of the ID file and the engine liveness probe. The collective
GC running between the early return and the sanity check only removes ID
files of dead instances, so it cannot affect the invocation's own file on
these paths (after gc_cid_file / gc_meta_files, a still-present file
references a live instance); it is elided from the decision. -/

/-- What the create gate decides: reuse the running instance (early return),
fail with AlreadyRunning, or fall through to provisioning and creation. -/
inductive CreateDecision where
  | reuse (idContent : String)
  | alreadyRunning
  | createNew
deriving DecidableEq, Repr

/-- Abstract world consulted by create: whether the ID file for the derived
identity exists, its content, and the engine liveness probe
(container_exists for podman, the kill -0 probe for firecracker). -/
structure IdFileWorld where
  idFileExists : Bool
  idContent : String
  alive : String → Bool

/-- gc_cid_file from podman.rs: read the CID; keep the file and return true
when the container exists, otherwise remove the stale file and return false.
Result: (container exists, ID file still present). -/
def gc_cid_file (w : IdFileWorld) : Bool × Bool :=
  if w.alive w.idContent then (true, true) else (false, false)

/-- The create gate of podman.rs: early return with the existing CID when the
instance is alive and resume or attach mode is set; otherwise AlreadyRunning
when the CID file survived the per-file GC; otherwise proceed to creation.
Result: (decision, ID file present on return). -/
def podman_create_decision (w : IdFileWorld) (resume attach : Bool) :
    CreateDecision × Bool :=
  if w.idFileExists then
    let gcr := gc_cid_file w
    if gcr.1 && (resume || attach) then
      (.reuse w.idContent, gcr.2)
    else if gcr.2 then
      (.alreadyRunning, gcr.2)
    else
      (.createNew, gcr.2)
  else
    (.createNew, false)

/-- vm_running from firecracker.rs: the placeholder PID 0 is never running,
otherwise probe the monitor process. -/
def vm_running (alive : String → Bool) (vmid : String) : Bool :=
  if vmid = "0" then false else alive vmid

/-- gc_meta_files from firecracker.rs observed on the ID file: keep it and
report true when the referenced VM runs; otherwise remove it (the socket
and overlay cleanup is modelled in the GC section below) and report false. -/
def gc_meta_files_status (w : IdFileWorld) : Bool × Bool :=
  if vm_running w.alive w.idContent then (true, true) else (false, false)

/-- The create gate of firecracker.rs: early return in resume mode when the
VM runs; otherwise AlreadyRunning when the VM ID file survived; otherwise
proceed to creation. -/
def firecracker_create_decision (w : IdFileWorld) (resume : Bool) :
    CreateDecision × Bool :=
  if w.idFileExists then
    let gcr := gc_meta_files_status w
    if gcr.1 && resume then
      (.reuse w.idContent, gcr.2)
    else if gcr.2 then
      (.alreadyRunning, gcr.2)
    else
      (.createNew, gcr.2)
  else
    (.createNew, false)

/-! ## VM boot-args construction (C9): create_firecracker_config -/

/-- Vec::join(sep) on strings. -/
def strIntercalate (sep : String) : List String → String
  | [] => ""
  | [a] => a
  | a :: rest => a ++ sep ++ strIntercalate sep rest

/-- The per-option rewrite in the boot_args loop of
create_firecracker_config: in vsock mode (resume or force_vsock) and outside
debug mode, a console= option is replaced by an empty console= entry. -/
def processBootOption (resume force_vsock debug : Bool)
    (boot_option : String) : String :=
  if (resume || force_vsock) && !debug
      && strStartsWith "console=" boot_option then
    "console="
  else
    boot_option

/-- The boot_args vector built by create_firecracker_config before joining:
PILOT_DEBUG=1 in debug mode, then overlay_root=/dev/vdb when an overlay size
is configured, then every configured boot option rewritten as above. -/
def bootArgsVec (debug overlay_configured resume force_vsock : Bool)
    (cfg_boot_args : List String) : List String :=
  (if debug then ["PILOT_DEBUG=1"] else [])
    ++ (if overlay_configured then ["overlay_root=/dev/vdb"] else [])
    ++ cfg_boot_args.map (processBootOption resume force_vsock debug)

/-- The final boot-args string: the template's boot_args (followed by a
separating space when nonempty), the built vector joined by single spaces,
then either run=vsock in vsock mode or the quoted space-joined run
commandline. -/
def firecracker_boot_args (template_boot_args : String)
    (debug overlay_configured resume force_vsock : Bool)
    (cfg_boot_args runCmd : List String) : String :=
  (if template_boot_args = "" then template_boot_args
   else template_boot_args ++ " ")
    ++ strIntercalate " "
      (bootArgsVec debug overlay_configured resume force_vsock cfg_boot_args)
    ++ (if resume || force_vsock then " run=vsock"
        else " run=\"" ++ strIntercalate " " runCmd ++ "\"")

/-! ## Garbage collection (C5): gc / gc_meta_files / gc_cid_file

The filesystem surface touched by the collectors is modelled explicitly: the
ID-file directory as an ordered (path, content) list, the vsock sockets and
the overlay images as path lists, and the liveness probes as pure predicates.
File removals are modelled as succeeding (the source logs and ignores
removal errors). -/

/-- GC_THRESHOLD from defaults.rs (both pilots). -/
def GC_THRESHOLD : Nat := 20

/-- FIRECRACKER_OVERLAY_DIR from firecracker defaults.rs. -/
def FIRECRACKER_OVERLAY_DIR : String := "/var/lib/firecracker/storage"

/-- Path::file_name: the component after the last slash. -/
def pathFileName (path : String) : String :=
  match rsplitOnce '/' path.data with
  | some (_, r) => ⟨r⟩
  | none => path

/-- Rust str::replace of every occurrence of .vmid by .ext2: scan left to
right, replacing each non-overlapping occurrence. -/
def replaceVmidExt2 : List Char → List Char
  | '.' :: 'v' :: 'm' :: 'i' :: 'd' :: rest =>
    '.' :: 'e' :: 'x' :: 't' :: '2' :: replaceVmidExt2 rest
  | [] => []
  | c :: cs => c :: replaceVmidExt2 cs

/-- The overlay image path gc_meta_files derives from a VM ID file path:
the overlay directory joined with the ID file's name, .vmid replaced by
.ext2. -/
def vm_overlay_path_of_id_file (vm_id_file : String) : String :=
  FIRECRACKER_OVERLAY_DIR ++ "/"
    ++ (⟨replaceVmidExt2 (pathFileName vm_id_file).data⟩ : String)

/-- The vsock proxy socket path of the INVOKING identity, as formatted inside
gc_meta_files from the current program name and arguments. -/
def vsock_uds_path (program_name : String) (args : List String) : String :=
  "/run/sci_cmd_" ++ get_meta_name program_name args ++ ".sock"

/-- The filesystem surface of the VM collector. -/
structure VmFs where
  idsDir : List (String × String)
  sockets : List String
  overlays : List String
  running : String → Bool

/-- fs::read_to_string on an ID file of the directory. -/
def readIdFile (fs : VmFs) (vm_id_file : String) : Option String :=
  (fs.idsDir.find? (fun p => p.1 = vm_id_file)).map (fun p => p.2)

/-- fs::remove_file on an ID file. -/
def removeIdFile (fs : VmFs) (vm_id_file : String) : VmFs :=
  { fs with idsDir := fs.idsDir.filter (fun p => ¬(p.1 = vm_id_file)) }

/-- gc_meta_files from firecracker.rs over the modelled filesystem: read the
ID file (a read error is logged and reported as not-running with no
removal); when the referenced VM runs, keep everything and return true;
otherwise remove the ID file, remove the INVOKING identity's socket when it
exists, remove the derived overlay image when it exists and resume is
unset, and return false. -/
def gc_meta_files_fs (program_name : String) (args : List String)
    (resume : Bool) (fs : VmFs) (vm_id_file : String) : VmFs × Bool :=
  match readIdFile fs vm_id_file with
  | none => (fs, false)
  | some vmid =>
    if vm_running fs.running vmid then
      (fs, true)
    else
      let fs1 := removeIdFile fs vm_id_file
      let sock := vsock_uds_path program_name args
      let fs2 :=
        if sock ∈ fs1.sockets then
          { fs1 with sockets := fs1.sockets.filter (fun s => ¬(s = sock)) }
        else
          fs1
      let ovl := vm_overlay_path_of_id_file vm_id_file
      let fs3 :=
        if ovl ∈ fs2.overlays ∧ resume = false then
          { fs2 with overlays := fs2.overlays.filter (fun s => ¬(s = ovl)) }
        else
          fs2
      (fs3, false)

/-- gc from firecracker.rs: collect the directory entries, return unchanged
when at most GC_THRESHOLD, otherwise run gc_meta_files over every collected
file name with resume hard-coded to true (overlay images are deliberately
never deleted by the collective pass). -/
def gc_fs (program_name : String) (args : List String) (fs : VmFs) : VmFs :=
  let vmid_file_names := fs.idsDir.map (fun p => p.1)
  if vmid_file_names.length ≤ GC_THRESHOLD then
    fs
  else
    vmid_file_names.foldl
      (fun s vm_id_file => (gc_meta_files_fs program_name args true s vm_id_file).1)
      fs

/-- The filesystem surface of the container collector. -/
structure CidFs where
  idsDir : List (String × String)
  containerExists : String → Bool

/-- gc_cid_file from podman.rs over the modelled filesystem: read the CID
file (a read error propagates; in the collective pass it is ignored with no
removal); keep the file and return true when the container exists, else
remove it and return false. -/
def gc_cid_file_fs (fs : CidFs) (cid_file : String) : CidFs × Bool :=
  match (fs.idsDir.find? (fun p => p.1 = cid_file)).map (fun p => p.2) with
  | none => (fs, false)
  | some cid =>
    if fs.containerExists cid then
      (fs, true)
    else
      ({ fs with idsDir := fs.idsDir.filter (fun p => ¬(p.1 = cid_file)) }, false)

/-- gc from podman.rs: collect the directory entries, return unchanged when
at most GC_THRESHOLD, otherwise run gc_cid_file over every collected file
name, ignoring per-file results. -/
def podman_gc_fs (fs : CidFs) : CidFs :=
  let cid_file_names := fs.idsDir.map (fun p => p.1)
  if cid_file_names.length ≤ GC_THRESHOLD then
    fs
  else
    cid_file_names.foldl (fun s cid_file => (gc_cid_file_fs s cid_file).1) fs

/-! ## Provisioning (C1): run_podman_creation and run_creation

The provisioning pipelines are embedded as state machines over an explicit
mount/identity state; each external operation's outcome is supplied by an
oracle. The permission-retry and resume-force-cleanup retries inside the
initial podman create call are collapsed into that call's overall outcome
(createOk), and tempfile creation is modelled as succeeding; every
provisioning step and cleanup call after creation is kept one-to-one with
the source control flow, including which failures are routed through the
provisioning_failed accumulator (followed by instance unmount and container
removal) and which return early with the question-mark operator. -/

/-- IMAGE_ROOT from firecracker defaults.rs. -/
def IMAGE_ROOT : String := "image"

/-- IMAGE_OVERLAY from firecracker defaults.rs. -/
def IMAGE_OVERLAY : String := "overlayroot"

/-- OVERLAY_ROOT from firecracker defaults.rs. -/
def OVERLAY_ROOT : String := "overlayroot/rootfs"

/-- Errors surfaced by the embedded podman provisioning pipeline, by failure
source. -/
inductive PErr where
  | createFailed
  | mountInstanceFailed
  | rmFailed
  | sysdepsFailed
  | removedReadFailed
  | removedSyncFailed
  | layerMountFailed (layer : String)
  | layerReadFailed (layer : String)
  | layerSyncFailed (layer : String)
  | layersHostSyncFailed
  | includesFailed
deriving DecidableEq, Repr

/-- Host state tracked across podman provisioning: held engine mounts, the
created container, and the CID file written by podman create. -/
structure PState where
  mounts : List String
  containerExists : Bool
  cidFilePresent : Bool
deriving DecidableEq, Repr

/-- Outcomes of the external operations run_podman_creation performs. -/
structure POracle where
  createOk : Bool
  cid : String
  mountInstanceOk : Bool
  rmOk : Bool
  sysdepsBuildOk : Bool
  sysdepsSyncOk : Bool
  removedReadOk : Bool
  removedSyncOk : Bool
  layerMountOk : String → Bool
  layerReadOk : String → Bool
  layerSyncOk : String → Bool
  layerUmountOk : String → Bool
  layersHostSyncOk : Bool
  includesOk : Bool
  umountInstanceOk : Bool

/-- Static configuration consulted by run_podman_creation. -/
structure PodmanCfg where
  is_delta : Bool
  check_host_dependencies : Bool
  has_includes : Bool
  ignore_sync_error : Bool
  layers : List String
  name : String

/-- The engine mount point of the container instance under provisioning. -/
def instanceMountName (cid : String) : String := "instance:" ++ cid

/-- The engine image mount point of a delta layer. -/
def layerMountName (layer : String) : String := "image:" ++ layer

/-- The delta-layer loop of run_podman_creation: for each layer and finally
the main image name, mount the layer image, append its removed list, rsync
it over the instance, and unmount it IGNORING the unmount result; each of
the first three steps propagates its error with the question-mark operator,
leaving all currently held mounts in place. -/
def podman_layer_loop (o : POracle) : List String → PState → PState × Option PErr
  | [], st => (st, none)
  | layer :: rest, st =>
    if !o.layerMountOk layer then
      (st, some (.layerMountFailed layer))
    else
      let st1 := { st with mounts := st.mounts ++ [layerMountName layer] }
      if !o.layerReadOk layer then
        (st1, some (.layerReadFailed layer))
      else if !o.layerSyncOk layer then
        (st1, some (.layerSyncFailed layer))
      else
        let st2 :=
          if o.layerUmountOk layer then
            { st1 with mounts :=
              st1.mounts.filter (fun m => ¬(m = layerMountName layer)) }
          else
            st1
        podman_layer_loop o rest st2

/-- The tail of run_podman_creation shared by the accumulated
provisioning_failed paths and the success path: unmount the instance
(result ignored), then remove the container and return the recorded error,
or return the container ID. -/
def podman_finish (o : POracle) (st : PState) (err : Option PErr) :
    PState × Except PErr String :=
  let st' :=
    if o.umountInstanceOk then
      { st with mounts :=
        st.mounts.filter (fun m => ¬(m = instanceMountName o.cid)) }
    else
      st
  match err with
  | some e =>
    if o.rmOk then
      ({ st' with containerExists := false }, .error e)
    else
      (st', .error .rmFailed)
  | none => (st', .ok o.cid)

/-- run_podman_creation from podman.rs as a state machine: create the
container (podman writes the CID file), and when the container is a delta
container or host dependencies are checked, mount the instance (on mount
failure remove the container and return), run the system-dependency phase
(failures recorded in provisioning_failed unless ignored), the removed-file
phase (failures return early with the mounts still held), the delta-layer
loop and its host sync (failures return early likewise), and the include
sync (failure recorded); finally unmount the instance and, when a failure
was recorded, remove the container and return it. -/
def run_podman_creation (o : POracle) (cfg : PodmanCfg) :
    PState × Except PErr String :=
  if !o.createOk then
    (⟨[], false, false⟩, .error .createFailed)
  else
    let st1 : PState := ⟨[], true, true⟩
    if cfg.is_delta || cfg.check_host_dependencies then
      if !o.mountInstanceOk then
        if o.rmOk then
          ({ st1 with containerExists := false }, .error .mountInstanceFailed)
        else
          (st1, .error .rmFailed)
      else
        let st2 : PState := { st1 with mounts := [instanceMountName o.cid] }
        if !(o.sysdepsBuildOk && o.sysdepsSyncOk) && !cfg.ignore_sync_error then
          podman_finish o st2 (some .sysdepsFailed)
        else if !o.removedReadOk then
          (st2, .error .removedReadFailed)
        else if !o.removedSyncOk then
          (st2, .error .removedSyncFailed)
        else
          match (if cfg.is_delta then
                   podman_layer_loop o (cfg.layers ++ [cfg.name]) st2
                 else
                   (st2, none)) with
          | (st3, some e) => (st3, .error e)
          | (st3, none) =>
            if cfg.is_delta && !o.layersHostSyncOk then
              (st3, .error .layersHostSyncFailed)
            else if cfg.has_includes && !o.includesOk then
              podman_finish o st3 (some .includesFailed)
            else
              podman_finish o st3 none
    else
      (st1, .ok o.cid)

/-- Errors surfaced by the embedded firecracker creation pipeline. -/
inductive FErr where
  | idWriteFailed
  | overlayWriteFailed
  | mkfsFailed
  | mountImageFailed
  | mountOverlayFailed
  | mountOverlayFsFailed
  | includesFailed
  | umountFailed
deriving DecidableEq, Repr

/-- Host state tracked across VM creation: the VM ID file content (none when
absent) and the held mounts under the temporary directory. -/
structure FState where
  idFile : Option String
  mounts : List String
deriving DecidableEq, Repr

/-- Outcomes of the external operations run_creation performs. -/
structure FOracle where
  idWriteOk : Bool
  overlayWriteOk : Bool
  mkfsOk : Bool
  mountImageOk : Bool
  mountOverlayOk : Bool
  mountOverlayFsOk : Bool
  includesOk : Bool
  umountRootOk : Bool
  umountOverlayOk : Bool
  umountImageOk : Bool

/-- Static configuration consulted by run_creation. -/
structure FCfg where
  resume : Bool
  overlay_size_configured : Bool
  overlay_exists : Bool
  has_includes : Bool

/-- mount_vm from firecracker.rs: mount the rootfs image, then the overlay
device, then the overlayfs view, each propagating its error and leaving the
earlier mounts held. -/
def mount_vm (o : FOracle) (st : FState) : FState × Option FErr :=
  if !o.mountImageOk then
    (st, some .mountImageFailed)
  else
    let st1 := { st with mounts := st.mounts ++ [IMAGE_ROOT] }
    if !o.mountOverlayOk then
      (st1, some .mountOverlayFailed)
    else
      let st2 := { st1 with mounts := st1.mounts ++ [IMAGE_OVERLAY] }
      if !o.mountOverlayFsOk then
        (st2, some .mountOverlayFsFailed)
      else
        ({ st2 with mounts := st2.mounts ++ [OVERLAY_ROOT] }, none)

/-- umount_vm from firecracker.rs: attempt all three unmounts in reverse
order, then collect the results into the first error. -/
def umount_vm (o : FOracle) (st : FState) : FState × Option FErr :=
  let st1 :=
    if o.umountRootOk then
      { st with mounts := st.mounts.filter (fun m => ¬(m = OVERLAY_ROOT)) }
    else
      st
  let st2 :=
    if o.umountOverlayOk then
      { st1 with mounts := st1.mounts.filter (fun m => ¬(m = IMAGE_OVERLAY)) }
    else
      st1
  let st3 :=
    if o.umountImageOk then
      { st2 with mounts := st2.mounts.filter (fun m => ¬(m = IMAGE_ROOT)) }
    else
      st2
  (st3,
    if !o.umountRootOk then some .umountFailed
    else if !o.umountOverlayOk then some .umountFailed
    else if !o.umountImageOk then some .umountFailed
    else none)

/-- run_creation from firecracker.rs as a state machine: write the initial
ID file with content 0, create and format the overlay image when configured
(and missing or non-resume), then when an overlay is configured mount the
VM, sync the includes when present (failure returns early with all mounts
held), and unmount; no failure path removes the ID file. -/
def run_creation (o : FOracle) (cfg : FCfg) (vm_id_file : String) :
    FState × Except FErr (String × String) :=
  if !o.idWriteOk then
    (⟨none, []⟩, .error .idWriteFailed)
  else
    let st1 : FState := ⟨some "0", []⟩
    let mkfsPhase : Option FErr :=
      if cfg.overlay_size_configured && (!cfg.overlay_exists || !cfg.resume) then
        if !o.overlayWriteOk then some .overlayWriteFailed
        else if !o.mkfsOk then some .mkfsFailed
        else none
      else
        none
    match mkfsPhase with
    | some e => (st1, .error e)
    | none =>
      if cfg.overlay_size_configured then
        match mount_vm o st1 with
        | (st2, some e) => (st2, .error e)
        | (st2, none) =>
          if cfg.has_includes && !o.includesOk then
            (st2, .error .includesFailed)
          else
            match umount_vm o st2 with
            | (st3, some e) => (st3, .error e)
            | (st3, none) => (st3, .ok ("0", vm_id_file))
      else
        (st1, .ok ("0", vm_id_file))

/-! ## Supporting lemmas -/

/-- Concatenation of a list of strings. -/
def strCat (l : List String) : String :=
  l.foldr (fun a b => a ++ b) ""

theorem rsplitOnce_none {α : Type} [DecidableEq α] (sep : α) :
    ∀ cs : List α, rsplitOnce sep cs = none ↔ sep ∉ cs := by
  intro cs
  induction cs with
  | nil => simp [rsplitOnce]
  | cons c cs ih =>
    simp only [rsplitOnce]
    cases hrec : rsplitOnce sep cs with
    | some p =>
      have hmem : sep ∈ cs := by
        by_contra hn
        rw [(ih).mpr hn] at hrec
        cases hrec
      simp [hmem]
    | none =>
      by_cases hc : c = sep
      · subst hc
        simp
      · simp only [if_neg hc]
        constructor
        · intro _
          simp only [List.mem_cons]
          rintro (h1 | h2)
          · exact hc h1.symm
          · exact (ih.mp hrec) h2
        · intro _
          trivial

theorem rsplitOnce_some {α : Type} [DecidableEq α] (sep : α) :
    ∀ (cs l r : List α), rsplitOnce sep cs = some (l, r) →
      cs = l ++ sep :: r ∧ sep ∉ r := by
  intro cs
  induction cs with
  | nil => intro l r h; simp [rsplitOnce] at h
  | cons c cs ih =>
    intro l r h
    simp only [rsplitOnce] at h
    cases hrec : rsplitOnce sep cs with
    | some p =>
      rw [hrec] at h
      obtain ⟨l', r'⟩ := p
      simp only [Option.some.injEq, Prod.mk.injEq] at h
      obtain ⟨hl, hr⟩ := h
      obtain ⟨hcs, hnm⟩ := ih l' r' hrec
      subst hl
      subst hr
      subst hcs
      exact ⟨by simp, hnm⟩
    | none =>
      rw [hrec] at h
      by_cases hc : c = sep
      · rw [if_pos hc] at h
        injection h with h'
        cases h'
        subst hc
        exact ⟨rfl, (rsplitOnce_none c cs).mp hrec⟩
      · rw [if_neg hc] at h
        cases h

theorem mem_hmInsert (m : List (String × String)) (k v k' v' : String)
    (h : (k, v) ∈ hmInsert m k' v') : (k, v) ∈ m ∨ (k = k' ∧ v = v') := by
  unfold hmInsert at h
  by_cases hex : m.any (fun p => p.1 = k')
  · simp [hex] at h
    obtain ⟨a, b, hab, heq⟩ := h
    by_cases hk : a = k'
    · simp [hk] at heq
      right; exact ⟨heq.1.symm, heq.2.symm⟩
    · simp [hk] at heq
      left; obtain ⟨h1, h2⟩ := heq; subst h1; subst h2; exact hab
  · simp [hex] at h
    rcases h with h | h
    · left; exact h
    · right; exact ⟨h.1, h.2⟩

theorem mem_foldl_options (k v : String) :
    ∀ (args : List String) (m : List (String × String)),
      (k, v) ∈ args.foldl
        (fun m arg =>
          match pilotOptionEntry arg with
          | some (k, v) => hmInsert m k v
          | none => m) m →
      (k, v) ∈ m ∨ ∃ a ∈ args, pilotOptionEntry a = some (k, v) := by
  intro args
  induction args with
  | nil => intro m hm; left; exact hm
  | cons a as ih =>
    intro m hm
    simp only [List.foldl_cons] at hm
    cases he : pilotOptionEntry a with
    | none =>
      rw [he] at hm
      rcases ih m hm with h1 | h1
      · left; exact h1
      · right; obtain ⟨b, hb, hbe⟩ := h1; exact ⟨b, List.mem_cons_of_mem a hb, hbe⟩
    | some p =>
      obtain ⟨k', v'⟩ := p
      rw [he] at hm
      rcases ih (hmInsert m k' v') hm with h1 | h1
      · rcases mem_hmInsert m k v k' v' h1 with h2 | h2
        · left; exact h2
        · right; exact ⟨a, List.mem_cons_self a as, by rw [he, h2.1, h2.2]⟩
      · right; obtain ⟨b, hb, hbe⟩ := h1; exact ⟨b, List.mem_cons_of_mem a hb, hbe⟩

theorem mem_get_pilot_run_options (args : List String) (k v : String)
    (h : (k, v) ∈ get_pilot_run_options args) :
    ∃ a ∈ args, pilotOptionEntry a = some (k, v) := by
  unfold get_pilot_run_options at h
  rcases mem_foldl_options k v args [] h with h0 | h0
  · cases h0
  · exact h0

theorem string_append_assoc (a b c : String) : a ++ b ++ c = a ++ (b ++ c) :=
  String.ext (by simp [List.append_assoc])

theorem get_meta_name_eq (args : List String) : ∀ (program : String),
    get_meta_name program args =
      program ++ strCat (args.filter (fun a => startsWithChar '@' a)) := by
  induction args with
  | nil =>
    intro program
    show program = program ++ ""
    exact String.ext (by simp)
  | cons a as ih =>
    intro program
    cases ha : startsWithChar '@' a with
    | true =>
      have step : get_meta_name program (a :: as) = get_meta_name (program ++ a) as := by
        unfold get_meta_name
        rw [List.foldl_cons, ha, if_pos rfl]
      rw [step, ih (program ++ a), List.filter_cons_of_pos (by simp [ha])]
      show program ++ a ++ _ = program ++ (a ++ _)
      exact string_append_assoc ..
    | false =>
      have step : get_meta_name program (a :: as) = get_meta_name program as := by
        unfold get_meta_name
        rw [List.foldl_cons, ha]
        simp
      rw [step, ih program, List.filter_cons_of_neg (by simp [ha])]

theorem string_affix_inj (pre post m1 m2 : String)
    (h : pre ++ m1 ++ post = pre ++ m2 ++ post) : m1 = m2 := by
  have hd := congrArg String.data h
  simp only [String.data_append, List.append_assoc] at hd
  have h1 := List.append_cancel_left hd
  have h2 := List.append_cancel_right h1
  exact String.ext h2

/-! ## Lemmas for provisioning (C1) -/

theorem podman_layer_loop_cid (o : POracle) :
    ∀ (layers : List String) (st : PState),
      ((podman_layer_loop o layers st).1).cidFilePresent = st.cidFilePresent := by
  intro layers
  induction layers with
  | nil => intro st; rfl
  | cons layer rest ih =>
    intro st
    unfold podman_layer_loop
    cases h1 : o.layerMountOk layer with
    | false => simp [h1]
    | true =>
      cases h2 : o.layerReadOk layer with
      | false => simp [h1, h2]
      | true =>
        cases h3 : o.layerSyncOk layer with
        | false => simp [h1, h2, h3]
        | true =>
          cases h4 : o.layerUmountOk layer with
          | false => simp [h1, h2, h3, h4, ih]
          | true => simp [h1, h2, h3, h4, ih]

theorem podman_finish_cid (o : POracle) (st : PState) (err : Option PErr) :
    ((podman_finish o st err).1).cidFilePresent = st.cidFilePresent := by
  unfold podman_finish
  cases err with
  | none => cases h1 : o.umountInstanceOk <;> simp [h1]
  | some e =>
    cases h1 : o.umountInstanceOk <;> cases h2 : o.rmOk <;> simp [h1, h2]

theorem mount_vm_idFile (o : FOracle) (st : FState) :
    ((mount_vm o st).1).idFile = st.idFile := by
  unfold mount_vm
  cases h1 : o.mountImageOk with
  | false => simp [h1]
  | true =>
    cases h2 : o.mountOverlayOk with
    | false => simp [h1, h2]
    | true =>
      cases h3 : o.mountOverlayFsOk with
      | false => simp [h1, h2, h3]
      | true => simp [h1, h2, h3]

theorem umount_vm_idFile (o : FOracle) (st : FState) :
    ((umount_vm o st).1).idFile = st.idFile := by
  unfold umount_vm
  cases h1 : o.umountRootOk <;> cases h2 : o.umountOverlayOk <;>
    cases h3 : o.umountImageOk <;> simp [h1, h2, h3]

/-! ## Lemmas for the config merge (C2) -/

theorem find?_map_replace_self {V : Type} (k : String) (v : V) :
    ∀ m : List (String × V), m.any (fun p => p.1 = k) = true →
      (m.map (fun p => if p.1 = k then (k, v) else p)).find? (fun p => p.1 = k)
        = some (k, v) := by
  intro m
  induction m with
  | nil => intro h; cases h
  | cons p ps ih =>
    intro h
    by_cases hp : p.1 = k
    · simp only [List.map_cons, if_pos hp]
      exact List.find?_cons_of_pos _ (by simp)
    · simp only [List.map_cons, if_neg hp]
      rw [List.find?_cons_of_neg _ (by simp [hp])]
      apply ih
      simpa [hp] using h

theorem find?_map_replace_other {V : Type} (k k' : String) (v' : V) (hk : k ≠ k') :
    ∀ m : List (String × V),
      (m.map (fun p => if p.1 = k' then (k', v') else p)).find? (fun p => p.1 = k)
        = m.find? (fun p => p.1 = k) := by
  intro m
  induction m with
  | nil => rfl
  | cons p ps ih =>
    by_cases hp : p.1 = k'
    · simp only [List.map_cons, if_pos hp]
      rw [List.find?_cons_of_neg _
          (by intro hcontra; exact hk ((by simpa using hcontra : k' = k)).symm),
        List.find?_cons_of_neg _
          (by intro hcontra; rw [hp] at hcontra
              exact hk ((by simpa using hcontra : k' = k)).symm)]
      exact ih
    · simp only [List.map_cons, if_neg hp]
      by_cases hpk : p.1 = k
      · rw [List.find?_cons_of_pos _ (by simp [hpk]),
          List.find?_cons_of_pos _ (by simp [hpk])]
      · rw [List.find?_cons_of_neg _ (by simp [hpk]),
          List.find?_cons_of_neg _ (by simp [hpk])]
        exact ih

theorem strictParse_lhmInsert_self {V : Type} (m : List (String × V))
    (k : String) (v : V) : strictParse (lhmInsert m k v) k = some v := by
  unfold strictParse lhmInsert
  by_cases h : m.any (fun p => p.1 = k) = true
  · rw [if_pos h, find?_map_replace_self k v m h]
    rfl
  · rw [if_neg h, List.find?_append]
    have hnone : m.find? (fun p => p.1 = k) = none := by
      rw [List.find?_eq_none]
      intro x hx hc
      apply h
      simp only [List.any_eq_true]
      exact ⟨x, hx, hc⟩
    rw [hnone]
    simp

theorem strictParse_lhmInsert_other {V : Type} (m : List (String × V))
    (k k' : String) (v' : V) (hk : k ≠ k') :
    strictParse (lhmInsert m k' v') k = strictParse m k := by
  unfold strictParse lhmInsert
  by_cases h : m.any (fun p => p.1 = k') = true
  · rw [if_pos h, find?_map_replace_other k k' v' hk m]
  · rw [if_neg h, List.find?_append]
    have hsingle : ([(k', v')] : List (String × V)).find? (fun p => p.1 = k)
        = none := by
      rw [List.find?_eq_none]
      intro x hx hc
      rw [List.mem_singleton] at hx
      subst hx
      exact hk ((by simpa using hc : k' = k)).symm
    rw [hsingle, Option.or_none]

theorem strictParse_foldl {V : Type} (k : String) :
    ∀ (doc m : List (String × V)),
      strictParse (doc.foldl (fun m p => lhmInsert m p.1 p.2) m) k
        = (lastOccurrence doc k).or (strictParse m k) := by
  intro doc
  induction doc with
  | nil =>
    intro m
    simp [lastOccurrence]
  | cons p ps ih =>
    intro m
    rw [List.foldl_cons, ih (lhmInsert m p.1 p.2)]
    have hlast : lastOccurrence (p :: ps) k
        = (lastOccurrence ps k).or (if p.1 = k then some p.2 else none) := by
      unfold lastOccurrence
      rw [List.reverse_cons, List.find?_append]
      cases hfind : ps.reverse.find? (fun q => q.1 = k) with
      | some q => simp [hfind]
      | none =>
        simp only [hfind, Option.none_or, Option.map_eq_map]
        by_cases hp : p.1 = k
        · simp [hp]
        · simp [hp]
    rw [hlast]
    cases hlo : lastOccurrence ps k with
    | some v => simp
    | none =>
      simp only [Option.none_or]
      by_cases hp : p.1 = k
      · rw [if_pos hp]
        subst hp
        exact strictParse_lhmInsert_self m p.1 p.2
      · rw [if_neg hp]
        exact strictParse_lhmInsert_other m k p.1 p.2 (fun h => hp h.symm)

/-! ## Lemmas for the guest protocol parse (C3) -/

theorem splitSep_ne_nil {α : Type} [DecidableEq α] (sep : α) :
    ∀ cs : List α, splitSep sep cs ≠ [] := by
  intro cs
  cases cs with
  | nil => simp [splitSep]
  | cons c cs =>
    simp only [splitSep]
    by_cases hc : c = sep
    · simp [hc]
    · simp only [if_neg hc]
      cases splitSep sep cs <;> simp

theorem mem_splitSep_not_mem {α : Type} [DecidableEq α] (sep : α) :
    ∀ (cs p : List α), p ∈ splitSep sep cs → sep ∉ p := by
  intro cs
  induction cs with
  | nil =>
    intro p hp
    simp [splitSep] at hp
    subst hp
    simp
  | cons c cs ih =>
    intro p hp
    simp only [splitSep] at hp
    by_cases hc : c = sep
    · rw [if_pos hc] at hp
      rcases List.mem_cons.mp hp with h | h
      · subst h; simp
      · exact ih p h
    · rw [if_neg hc] at hp
      cases hsplit : splitSep sep cs with
      | nil => exact absurd hsplit (splitSep_ne_nil sep cs)
      | cons q qs =>
        rw [hsplit] at hp
        rcases List.mem_cons.mp hp with h | h
        · subst h
          intro hmem
          rcases List.mem_cons.mp hmem with h1 | h1
          · exact hc h1.symm
          · exact ih q (by rw [hsplit]; exact List.mem_cons_self q qs) h1
        · exact ih p (by rw [hsplit]; exact List.mem_cons_of_mem q h)

theorem joinSep_splitSep {α : Type} [DecidableEq α] (sep : α) :
    ∀ cs : List α, joinSep sep (splitSep sep cs) = cs := by
  intro cs
  induction cs with
  | nil => rfl
  | cons c cs ih =>
    simp only [splitSep]
    by_cases hc : c = sep
    · rw [if_pos hc]
      cases hsplit : splitSep sep cs with
      | nil => exact absurd hsplit (splitSep_ne_nil sep cs)
      | cons q qs =>
        have hstep : joinSep sep ([] :: q :: qs) = sep :: joinSep sep (q :: qs) := rfl
        rw [hstep, ← hsplit, ih, hc]
    · rw [if_neg hc]
      cases hsplit : splitSep sep cs with
      | nil => exact absurd hsplit (splitSep_ne_nil sep cs)
      | cons q qs =>
        have hstep : joinSep sep ((c :: q) :: qs) = c :: joinSep sep (q :: qs) := by
          cases qs with
          | nil => rfl
          | cons r rs => rfl
        rw [hstep, ← hsplit, ih]

theorem joinSep_append_single {α : Type} (sep : α) :
    ∀ (l : List (List α)) (x : List α), l ≠ [] →
      joinSep sep (l ++ [x]) = joinSep sep l ++ sep :: x := by
  intro l
  induction l with
  | nil => intro x h; cases h rfl
  | cons p ps ih =>
    intro x _
    cases ps with
    | nil => rfl
    | cons q qs =>
      calc joinSep sep ((p :: q :: qs) ++ [x])
          = p ++ sep :: joinSep sep ((q :: qs) ++ [x]) := rfl
        _ = p ++ sep :: (joinSep sep (q :: qs) ++ sep :: x) := by
            rw [ih x (by simp)]
        _ = (p ++ sep :: joinSep sep (q :: qs)) ++ sep :: x := by simp

/-! ## Lemmas for garbage collection (C5) -/

theorem readIdFile_some {fs : VmFs} {f vmid : String}
    (h : readIdFile fs f = some vmid) :
    ∃ p ∈ fs.idsDir, p.1 = f ∧ p.2 = vmid := by
  unfold readIdFile at h
  cases hfind : fs.idsDir.find? (fun p => p.1 = f) with
  | none => rw [hfind] at h; cases h
  | some p =>
    rw [hfind] at h
    injection h with h'
    exact ⟨p, List.mem_of_find?_eq_some hfind,
      by simpa using List.find?_some hfind, h'⟩

theorem readIdFile_none {fs : VmFs} {f : String}
    (h : readIdFile fs f = none) :
    ∀ x ∈ fs.idsDir, x.1 ≠ f := by
  unfold readIdFile at h
  cases hfind : fs.idsDir.find? (fun p => p.1 = f) with
  | some p => rw [hfind] at h; cases h
  | none =>
    rw [List.find?_eq_none] at hfind
    intro x hx
    simpa using hfind x hx

theorem gc_step_none {p : String} {a : List String} {r : Bool} {fs : VmFs}
    {f : String} (hread : readIdFile fs f = none) :
    gc_meta_files_fs p a r fs f = (fs, false) := by
  unfold gc_meta_files_fs
  rw [hread]

theorem gc_step_live {p : String} {a : List String} {r : Bool} {fs : VmFs}
    {f vmid : String} (hread : readIdFile fs f = some vmid)
    (hlive : vm_running fs.running vmid = true) :
    gc_meta_files_fs p a r fs f = (fs, true) := by
  unfold gc_meta_files_fs
  rw [hread]
  simp [hlive]

theorem gc_step_dead {p : String} {a : List String} {r : Bool} {fs : VmFs}
    {f vmid : String} (hread : readIdFile fs f = some vmid)
    (hdead : vm_running fs.running vmid = false) :
    (gc_meta_files_fs p a r fs f).1 =
      { idsDir := fs.idsDir.filter (fun x => ¬(x.1 = f)),
        sockets :=
          if vsock_uds_path p a ∈ fs.sockets then
            fs.sockets.filter (fun s => ¬(s = vsock_uds_path p a))
          else
            fs.sockets,
        overlays :=
          if vm_overlay_path_of_id_file f ∈ fs.overlays ∧ r = false then
            fs.overlays.filter (fun s => ¬(s = vm_overlay_path_of_id_file f))
          else
            fs.overlays,
        running := fs.running } := by
  unfold gc_meta_files_fs
  rw [hread]
  simp only [hdead, Bool.false_eq_true, if_false, removeIdFile]
  by_cases h2 : vsock_uds_path p a ∈ fs.sockets <;>
    by_cases h3 : vm_overlay_path_of_id_file f ∈ fs.overlays ∧ r = false <;>
    simp [h2, h3]

theorem gc_step_running (p : String) (a : List String) (r : Bool) (fs : VmFs)
    (f : String) : ((gc_meta_files_fs p a r fs f).1).running = fs.running := by
  cases hread : readIdFile fs f with
  | none => rw [gc_step_none hread]
  | some vmid =>
    cases hlive : vm_running fs.running vmid with
    | true => rw [gc_step_live hread hlive]
    | false => rw [gc_step_dead hread hlive]

theorem gc_step_overlays_resume (p : String) (a : List String) (fs : VmFs)
    (f : String) : ((gc_meta_files_fs p a true fs f).1).overlays = fs.overlays := by
  cases hread : readIdFile fs f with
  | none => rw [gc_step_none hread]
  | some vmid =>
    cases hlive : vm_running fs.running vmid with
    | true => rw [gc_step_live hread hlive]
    | false =>
      rw [gc_step_dead hread hlive]
      simp

theorem gc_step_idsDir_sub (p : String) (a : List String) (r : Bool) (fs : VmFs)
    (f : String) (x : String × String)
    (hx : x ∈ ((gc_meta_files_fs p a r fs f).1).idsDir) : x ∈ fs.idsDir := by
  cases hread : readIdFile fs f with
  | none => rw [gc_step_none hread] at hx; exact hx
  | some vmid =>
    cases hlive : vm_running fs.running vmid with
    | true => rw [gc_step_live hread hlive] at hx; exact hx
    | false =>
      rw [gc_step_dead hread hlive] at hx
      exact List.mem_of_mem_filter hx

theorem gc_step_sockets (p : String) (a : List String) (r : Bool) (fs : VmFs)
    (f s : String) (hs : s ∈ fs.sockets) (hne : s ≠ vsock_uds_path p a) :
    s ∈ ((gc_meta_files_fs p a r fs f).1).sockets := by
  cases hread : readIdFile fs f with
  | none => rw [gc_step_none hread]; exact hs
  | some vmid =>
    cases hlive : vm_running fs.running vmid with
    | true => rw [gc_step_live hread hlive]; exact hs
    | false =>
      rw [gc_step_dead hread hlive]
      simp only
      by_cases h2 : vsock_uds_path p a ∈ fs.sockets
      · rw [if_pos h2]
        exact List.mem_filter.mpr ⟨hs, by simpa using hne⟩
      · rw [if_neg h2]
        exact hs

theorem gc_step_live_kept (p : String) (a : List String) (r : Bool) (fs : VmFs)
    (f g c : String)
    (hkey : ∀ x ∈ fs.idsDir, x.1 = g → x.2 = c)
    (hlive : vm_running fs.running c = true)
    (hmem : (g, c) ∈ fs.idsDir) :
    (g, c) ∈ ((gc_meta_files_fs p a r fs f).1).idsDir := by
  cases hread : readIdFile fs f with
  | none => rw [gc_step_none hread]; exact hmem
  | some vmid =>
    cases hrun : vm_running fs.running vmid with
    | true => rw [gc_step_live hread hrun]; exact hmem
    | false =>
      rw [gc_step_dead hread hrun]
      apply List.mem_filter.mpr
      refine ⟨hmem, ?_⟩
      simp only [decide_not, Bool.not_eq_eq_eq_not, Bool.not_true,
        decide_eq_false_iff_not]
      intro hgf
      obtain ⟨q, hq, hq1, hq2⟩ := readIdFile_some hread
      have : vmid = c := by
        rw [← hq2]
        exact hkey q hq (by rw [hq1, ← hgf])
      rw [this, hlive] at hrun
      cases hrun

theorem gc_step_dead_removed (p : String) (a : List String) (r : Bool)
    (fs : VmFs) (f c : String)
    (hkey : ∀ x ∈ fs.idsDir, x.1 = f → x.2 = c)
    (hdead : vm_running fs.running c = false) :
    ∀ x ∈ ((gc_meta_files_fs p a r fs f).1).idsDir, x.1 ≠ f := by
  cases hread : readIdFile fs f with
  | none =>
    rw [gc_step_none hread]
    exact readIdFile_none hread
  | some vmid =>
    cases hrun : vm_running fs.running vmid with
    | true =>
      obtain ⟨q, hq, hq1, hq2⟩ := readIdFile_some hread
      have : vmid = c := by
        rw [← hq2]
        exact hkey q hq hq1
      rw [this, hdead] at hrun
      cases hrun
    | false =>
      rw [gc_step_dead hread hrun]
      intro x hx
      have := (List.mem_filter.mp hx).2
      simpa using this

theorem gc_fold_running (p : String) (a : List String) :
    ∀ (names : List String) (fs : VmFs),
      ((names.foldl (fun s n => (gc_meta_files_fs p a true s n).1) fs)).running
        = fs.running := by
  intro names
  induction names with
  | nil => intro fs; rfl
  | cons n ns ih =>
    intro fs
    rw [List.foldl_cons, ih, gc_step_running]

theorem gc_fold_overlays (p : String) (a : List String) :
    ∀ (names : List String) (fs : VmFs),
      ((names.foldl (fun s n => (gc_meta_files_fs p a true s n).1) fs)).overlays
        = fs.overlays := by
  intro names
  induction names with
  | nil => intro fs; rfl
  | cons n ns ih =>
    intro fs
    rw [List.foldl_cons, ih, gc_step_overlays_resume]

theorem gc_fold_idsDir_sub (p : String) (a : List String) :
    ∀ (names : List String) (fs : VmFs) (x : String × String),
      x ∈ ((names.foldl (fun s n => (gc_meta_files_fs p a true s n).1) fs)).idsDir
      → x ∈ fs.idsDir := by
  intro names
  induction names with
  | nil => intro fs x hx; exact hx
  | cons n ns ih =>
    intro fs x hx
    rw [List.foldl_cons] at hx
    exact gc_step_idsDir_sub p a true fs n x (ih _ x hx)

theorem gc_fold_sockets (p : String) (a : List String) :
    ∀ (names : List String) (fs : VmFs) (s : String),
      s ∈ fs.sockets → s ≠ vsock_uds_path p a →
      s ∈ ((names.foldl (fun st n => (gc_meta_files_fs p a true st n).1) fs)).sockets := by
  intro names
  induction names with
  | nil => intro fs s hs _; exact hs
  | cons n ns ih =>
    intro fs s hs hne
    rw [List.foldl_cons]
    exact ih _ s (gc_step_sockets p a true fs n s hs hne) hne

theorem gc_fold_live_kept (p : String) (a : List String) :
    ∀ (names : List String) (fs : VmFs) (g c : String),
      (∀ x ∈ fs.idsDir, x.1 = g → x.2 = c) →
      vm_running fs.running c = true →
      (g, c) ∈ fs.idsDir →
      (g, c) ∈ ((names.foldl (fun s n => (gc_meta_files_fs p a true s n).1) fs)).idsDir := by
  intro names
  induction names with
  | nil => intro fs g c _ _ hmem; exact hmem
  | cons n ns ih =>
    intro fs g c hkey hlive hmem
    rw [List.foldl_cons]
    apply ih
    · intro x hx
      exact hkey x (gc_step_idsDir_sub p a true fs n x hx)
    · rw [gc_step_running]
      exact hlive
    · exact gc_step_live_kept p a true fs n g c hkey hlive hmem

theorem gc_fold_dead_removed (p : String) (a : List String) :
    ∀ (names : List String) (fs : VmFs) (f c : String),
      (∀ x ∈ fs.idsDir, x.1 = f → x.2 = c) →
      vm_running fs.running c = false →
      f ∈ names →
      ∀ x ∈ ((names.foldl (fun s n => (gc_meta_files_fs p a true s n).1) fs)).idsDir,
        x.1 ≠ f := by
  intro names
  induction names with
  | nil => intro fs f c _ _ hmem; cases hmem
  | cons n ns ih =>
    intro fs f c hkey hdead hmem
    rw [List.foldl_cons]
    by_cases hfn : f = n
    · subst hfn
      intro x hx
      exact gc_step_dead_removed p a true fs f c hkey hdead x
        (gc_fold_idsDir_sub p a ns _ x hx)
    · have hmem' : f ∈ ns := by
        rcases List.mem_cons.mp hmem with h | h
        · exact absurd h hfn
        · exact h
      apply ih
      · intro x hx
        exact hkey x (gc_step_idsDir_sub p a true fs n x hx)
      · rw [gc_step_running]
        exact hdead
      · exact hmem'

theorem nodup_keys_unique {A : Type} :
    ∀ (l : List (String × A)) (f : String) (c : A),
      (l.map Prod.fst).Nodup → (f, c) ∈ l →
      ∀ x ∈ l, x.1 = f → x.2 = c := by
  intro l
  induction l with
  | nil => intro f c _ hmem; cases hmem
  | cons y ys ih =>
    intro f c hnd hmem x hx hxf
    rw [List.map_cons, List.nodup_cons] at hnd
    obtain ⟨hy, hnd'⟩ := hnd
    rcases List.mem_cons.mp hmem with hm | hm
    · rcases List.mem_cons.mp hx with hxm | hxm
      · rw [hxm, ← hm]
      · exfalso
        apply hy
        have hyf : y.1 = f := by rw [← hm]
        rw [hyf, ← hxf]
        exact List.mem_map_of_mem Prod.fst hxm
    · rcases List.mem_cons.mp hx with hxm | hxm
      · exfalso
        apply hy
        have hf : f ∈ ys.map Prod.fst := by
          have := List.mem_map_of_mem Prod.fst hm
          simpa using this
        rw [hxm] at hxf
        rw [← hxf] at hf
        exact hf
      · exact ih f c hnd' hm x hxm hxf

theorem gc_fs_not_triggered (p : String) (a : List String) (fs : VmFs)
    (h : fs.idsDir.length ≤ GC_THRESHOLD) : gc_fs p a fs = fs := by
  unfold gc_fs
  rw [if_pos (by simpa using h)]

theorem gc_fs_triggered (p : String) (a : List String) (fs : VmFs)
    (h : GC_THRESHOLD < fs.idsDir.length) :
    gc_fs p a fs = (fs.idsDir.map (fun q => q.1)).foldl
      (fun s n => (gc_meta_files_fs p a true s n).1) fs := by
  unfold gc_fs
  rw [if_neg (by simp only [List.length_map]; omega)]

/-! ## Lemmas for the container collector (C5, podman side) -/

theorem cid_step_none {fs : CidFs} {f : String}
    (hfind : (fs.idsDir.find? (fun p => p.1 = f)).map (fun p => p.2) = none) :
    gc_cid_file_fs fs f = (fs, false) := by
  unfold gc_cid_file_fs
  rw [hfind]

theorem cid_step_live {fs : CidFs} {f cid : String}
    (hfind : (fs.idsDir.find? (fun p => p.1 = f)).map (fun p => p.2) = some cid)
    (hex : fs.containerExists cid = true) :
    gc_cid_file_fs fs f = (fs, true) := by
  unfold gc_cid_file_fs
  rw [hfind]
  simp [hex]

theorem cid_step_dead {fs : CidFs} {f cid : String}
    (hfind : (fs.idsDir.find? (fun p => p.1 = f)).map (fun p => p.2) = some cid)
    (hex : fs.containerExists cid = false) :
    gc_cid_file_fs fs f =
      ({ idsDir := fs.idsDir.filter (fun p => ¬(p.1 = f)),
         containerExists := fs.containerExists }, false) := by
  unfold gc_cid_file_fs
  rw [hfind]
  simp [hex]

theorem cid_step_exists_preserved (fs : CidFs) (f : String) :
    ((gc_cid_file_fs fs f).1).containerExists = fs.containerExists := by
  cases hfind : (fs.idsDir.find? (fun p => p.1 = f)).map (fun p => p.2) with
  | none => rw [cid_step_none hfind]
  | some cid =>
    cases hex : fs.containerExists cid with
    | true => rw [cid_step_live hfind hex]
    | false => rw [cid_step_dead hfind hex]

theorem cid_step_idsDir_sub (fs : CidFs) (f : String) (x : String × String)
    (hx : x ∈ ((gc_cid_file_fs fs f).1).idsDir) : x ∈ fs.idsDir := by
  cases hfind : (fs.idsDir.find? (fun p => p.1 = f)).map (fun p => p.2) with
  | none => rw [cid_step_none hfind] at hx; exact hx
  | some cid =>
    cases hex : fs.containerExists cid with
    | true => rw [cid_step_live hfind hex] at hx; exact hx
    | false =>
      rw [cid_step_dead hfind hex] at hx
      exact List.mem_of_mem_filter hx

theorem cid_find_some {fs : CidFs} {f cid : String}
    (h : (fs.idsDir.find? (fun p => p.1 = f)).map (fun p => p.2) = some cid) :
    ∃ p ∈ fs.idsDir, p.1 = f ∧ p.2 = cid := by
  cases hfind : fs.idsDir.find? (fun p => p.1 = f) with
  | none => rw [hfind] at h; cases h
  | some p =>
    rw [hfind] at h
    injection h with h'
    exact ⟨p, List.mem_of_find?_eq_some hfind,
      by simpa using List.find?_some hfind, h'⟩

theorem cid_step_live_kept (fs : CidFs) (f g c : String)
    (hkey : ∀ x ∈ fs.idsDir, x.1 = g → x.2 = c)
    (hlive : fs.containerExists c = true)
    (hmem : (g, c) ∈ fs.idsDir) :
    (g, c) ∈ ((gc_cid_file_fs fs f).1).idsDir := by
  cases hfind : (fs.idsDir.find? (fun p => p.1 = f)).map (fun p => p.2) with
  | none => rw [cid_step_none hfind]; exact hmem
  | some cid =>
    cases hex : fs.containerExists cid with
    | true => rw [cid_step_live hfind hex]; exact hmem
    | false =>
      rw [cid_step_dead hfind hex]
      apply List.mem_filter.mpr
      refine ⟨hmem, ?_⟩
      simp only [decide_not, Bool.not_eq_eq_eq_not, Bool.not_true,
        decide_eq_false_iff_not]
      intro hgf
      obtain ⟨q, hq, hq1, hq2⟩ := cid_find_some hfind
      have hcid : cid = c := by
        rw [← hq2]
        exact hkey q hq (by rw [hq1, ← hgf])
      rw [hcid, hlive] at hex
      cases hex

theorem cid_step_dead_removed (fs : CidFs) (f c : String)
    (hkey : ∀ x ∈ fs.idsDir, x.1 = f → x.2 = c)
    (hdead : fs.containerExists c = false) :
    ∀ x ∈ ((gc_cid_file_fs fs f).1).idsDir, x.1 ≠ f := by
  cases hfind : (fs.idsDir.find? (fun p => p.1 = f)).map (fun p => p.2) with
  | none =>
    rw [cid_step_none hfind]
    intro x hx
    cases hfind2 : fs.idsDir.find? (fun p => p.1 = f) with
    | some p =>
      rw [hfind2] at hfind
      cases hfind
    | none =>
      rw [List.find?_eq_none] at hfind2
      simpa using hfind2 x hx
  | some cid =>
    obtain ⟨q, hq, hq1, hq2⟩ := cid_find_some hfind
    have hcid : cid = c := by
      rw [← hq2]
      exact hkey q hq hq1
    cases hex : fs.containerExists cid with
    | true =>
      rw [hcid, hdead] at hex
      cases hex
    | false =>
      rw [cid_step_dead hfind hex]
      intro x hx
      have := (List.mem_filter.mp hx).2
      simpa using this

theorem cid_fold_idsDir_sub :
    ∀ (names : List String) (fs : CidFs) (x : String × String),
      x ∈ ((names.foldl (fun s n => (gc_cid_file_fs s n).1) fs)).idsDir →
      x ∈ fs.idsDir := by
  intro names
  induction names with
  | nil => intro fs x hx; exact hx
  | cons n ns ih =>
    intro fs x hx
    rw [List.foldl_cons] at hx
    exact cid_step_idsDir_sub fs n x (ih _ x hx)

theorem cid_fold_live_kept :
    ∀ (names : List String) (fs : CidFs) (g c : String),
      (∀ x ∈ fs.idsDir, x.1 = g → x.2 = c) →
      fs.containerExists c = true →
      (g, c) ∈ fs.idsDir →
      (g, c) ∈ ((names.foldl (fun s n => (gc_cid_file_fs s n).1) fs)).idsDir := by
  intro names
  induction names with
  | nil => intro fs g c _ _ hmem; exact hmem
  | cons n ns ih =>
    intro fs g c hkey hlive hmem
    rw [List.foldl_cons]
    apply ih
    · intro x hx
      exact hkey x (cid_step_idsDir_sub fs n x hx)
    · rw [cid_step_exists_preserved]
      exact hlive
    · exact cid_step_live_kept fs n g c hkey hlive hmem

theorem cid_fold_dead_removed :
    ∀ (names : List String) (fs : CidFs) (f c : String),
      (∀ x ∈ fs.idsDir, x.1 = f → x.2 = c) →
      fs.containerExists c = false →
      f ∈ names →
      ∀ x ∈ ((names.foldl (fun s n => (gc_cid_file_fs s n).1) fs)).idsDir,
        x.1 ≠ f := by
  intro names
  induction names with
  | nil => intro fs f c _ _ hmem; cases hmem
  | cons n ns ih =>
    intro fs f c hkey hdead hmem
    rw [List.foldl_cons]
    by_cases hfn : f = n
    · subst hfn
      intro x hx
      exact cid_step_dead_removed fs f c hkey hdead x
        (cid_fold_idsDir_sub ns _ x hx)
    · have hmem' : f ∈ ns := by
        rcases List.mem_cons.mp hmem with h | h
        · exact absurd h hfn
        · exact h
      apply ih
      · intro x hx
        exact hkey x (cid_step_idsDir_sub fs n x hx)
      · rw [cid_step_exists_preserved]
        exact hdead
      · exact hmem'

theorem podman_gc_not_triggered (fs : CidFs)
    (h : fs.idsDir.length ≤ GC_THRESHOLD) : podman_gc_fs fs = fs := by
  unfold podman_gc_fs
  rw [if_pos (by simpa using h)]

theorem podman_gc_triggered (fs : CidFs)
    (h : GC_THRESHOLD < fs.idsDir.length) :
    podman_gc_fs fs = (fs.idsDir.map (fun q => q.1)).foldl
      (fun s n => (gc_cid_file_fs s n).1) fs := by
  unfold podman_gc_fs
  rw [if_neg (by simp only [List.length_map]; omega)]

/-- Claim C2: for every finite concatenation of YAML fragments, parsing
through the permissive reader, re-emitting and parsing with the strict schema
reader yields, for every top-level key, the value of its last occurrence
across the concatenation. -/
theorem C2_config_merge {V : Type} (doc : List (String × V)) (k : String) :
    config_from_str_key doc k = lastOccurrence doc k := by
  unfold config_from_str_key permissiveLoad
  rw [strictParse_foldl]
  have : strictParse ([] : List (String × V)) k = none := rfl
  rw [this, Option.or_none]

/-- Claim C3 counterexample: the single-token payload 4096 is non-empty yet
parses to an EMPTY command head (with port 4096), and the payload ls /x
parses with port 0 because its last token is not a u32. -/
theorem C3_counterexample :
    sciHandleRequest "4096".data = some (([] : List Char), 4096)
    ∧ sciHandleRequest "ls /x".data = some ("ls".data, 0) := by
  constructor
  · rfl
  · rfl

/-- Claim C3 as amended: a payload that is empty after trailing-whitespace
trimming is classified as a handshake probe and ignored; every other payload
is split on ASCII space into a command head (possibly empty, when the payload
holds a single token) and a last token containing no space, whose u32 parse
(defaulting to 0 on failure) gives the port; head and last token reassemble
the trimmed payload. -/
theorem C3_guest_protocol (payload : List Char) :
    (trimEndChars payload = [] → sciHandleRequest payload = none)
    ∧ (trimEndChars payload ≠ [] →
      ∃ exec_cmd last_tok : List Char,
        sciHandleRequest payload = some (exec_cmd, (parseU32 last_tok).getD 0)
        ∧ ' ' ∉ last_tok
        ∧ (exec_cmd = [] ∧ trimEndChars payload = last_tok
           ∨ trimEndChars payload = exec_cmd ++ ' ' :: last_tok)) := by
  constructor
  · intro h
    unfold sciHandleRequest
    simp only [h]
    rfl
  · intro h
    cases hp : splitSep ' ' (trimEndChars payload) with
    | nil => exact absurd hp (splitSep_ne_nil ' ' _)
    | cons q qs =>
      have hjoin : joinSep ' ' (q :: qs) = trimEndChars payload := by
        rw [← hp]
        exact joinSep_splitSep ' ' _
      refine ⟨joinSep ' ' (q :: qs).dropLast, (q :: qs).getLast?.getD [],
        ?_, ?_, ?_⟩
      · unfold sciHandleRequest
        simp only [if_neg h, hp]
      · intro hmem
        have hlast_mem : (q :: qs).getLast?.getD [] ∈ q :: qs := by
          rw [List.getLast?_eq_getLast (q :: qs) (by simp)]
          exact List.getLast_mem _
        exact mem_splitSep_not_mem ' ' (trimEndChars payload) _
          (hp ▸ hlast_mem) hmem
      · cases qs with
        | nil =>
          left
          refine ⟨rfl, ?_⟩
          rw [← hjoin]
          rfl
        | cons r rs =>
          right
          rw [← hjoin]
          have hne2 : (q :: r :: rs : List (List Char)) ≠ [] := by simp
          rw [List.getLast?_eq_getLast _ hne2, Option.getD_some]
          conv_lhs => rw [← List.dropLast_concat_getLast hne2]
          rw [joinSep_append_single ' ' _ _ (by simp)]

/-- Witness for the amended C3 at a concrete two-token payload. -/
theorem C3_guest_protocol_witness :
    ∃ exec_cmd last_tok : List Char,
      sciHandleRequest "ls 99".data = some (exec_cmd, (parseU32 last_tok).getD 0)
      ∧ ' ' ∉ last_tok
      ∧ (exec_cmd = [] ∧ trimEndChars "ls 99".data = last_tok
         ∨ trimEndChars "ls 99".data = exec_cmd ++ ' ' :: last_tok) :=
  (C3_guest_protocol "ls 99".data).2 (by decide)

/-- Claim C6: the derived instance identity is a pure function of the program
basename, the ordered at-tag tokens of the invocation and the caller user
name (the VM meta name is the basename with the at-tags appended in order;
the container identity additionally appends the user name), and two
invocations with distinct identities never touch the same ID file. -/
theorem C6_identity_uniqueness :
    (∀ (program : String) (args1 args2 : List String),
      args1.filter (fun a => startsWithChar '@' a)
        = args2.filter (fun a => startsWithChar '@' a) →
      get_meta_name program args1 = get_meta_name program args2)
    ∧ (∀ (program user : String) (args1 args2 : List String),
      args1.filter (fun a => startsWithChar '@' a)
        = args2.filter (fun a => startsWithChar '@' a) →
      podman_cid_identity program args1 user = podman_cid_identity program args2 user)
    ∧ (∀ (dir extensn : String) (p1 p2 : String) (a1 a2 : List String),
      get_meta_name p1 a1 ≠ get_meta_name p2 a2 →
      get_meta_file_name p1 a1 dir extensn ≠ get_meta_file_name p2 a2 dir extensn)
    ∧ (∀ (dir : String) (p1 p2 u1 u2 : String) (a1 a2 : List String),
      podman_cid_identity p1 a1 u1 ≠ podman_cid_identity p2 a2 u2 →
      container_cid_file dir p1 a1 u1 ≠ container_cid_file dir p2 a2 u2) := by
  refine ⟨?_, ?_, ?_, ?_⟩
  · intro program args1 args2 hf
    rw [get_meta_name_eq, get_meta_name_eq, hf]
  · intro program user args1 args2 hf
    unfold podman_cid_identity
    rw [hf]
  · intro dir extensn p1 p2 a1 a2 hne heq
    apply hne
    unfold get_meta_file_name at heq
    exact string_affix_inj (dir ++ "/") ("." ++ extensn) _ _
      (by rw [← String.append_assoc, ← String.append_assoc, heq])
  · intro dir p1 p2 u1 u2 a1 a2 hne heq
    apply hne
    unfold container_cid_file at heq
    exact string_affix_inj (dir ++ "/") ".cid" _ _ heq

/-- Witness for C6 at concrete inputs. -/
theorem C6_identity_uniqueness_witness :
    get_meta_name "app" ["@a", "x", "@b"] = get_meta_name "app" ["@a", "@b", "y"]
    ∧ get_meta_file_name "app" ["@a"] "/tmp/flakes" "vmid"
      ≠ get_meta_file_name "app" ["@b"] "/tmp/flakes" "vmid" := by
  constructor
  · exact C6_identity_uniqueness.1 "app" ["@a", "x", "@b"] ["@a", "@b", "y"] (by decide)
  · exact C6_identity_uniqueness.2.2.1 "/tmp/flakes" "vmid" "app" "app" ["@a"] ["@b"]
      (by decide)

/-- Claim C7: run-and-collect returns the captured output exactly when the
child was spawned and exited successfully; a non-zero exit yields an error
carrying the full captured output and the argv; a spawn failure yields an
error carrying the underlying OS error and the argv. -/
theorem C7_handle_output_spec (maybe_output : Except String Output)
    (args : List String) :
    (∀ out, handle_output maybe_output args = .ok out ↔
      maybe_output = .ok out ∧ out.status.success = true)
    ∧ (∀ out, maybe_output = .ok out → out.status.success = false →
      handle_output maybe_output args = .error ⟨.executionError out, args⟩)
    ∧ (∀ e, maybe_output = .error e →
      handle_output maybe_output args = .error ⟨.osError e, args⟩) := by
  refine ⟨?_, ?_, ?_⟩
  · intro out
    cases maybe_output with
    | ok o =>
      have hred : handle_output (.ok o) args =
          if o.status.success = true then .ok o
          else .error ⟨.executionError o, args⟩ := rfl
      cases h : o.status.success with
      | true =>
        rw [hred, h, if_pos rfl]
        constructor
        · intro he
          injection he with he'
          subst he'
          exact ⟨rfl, h⟩
        · intro hx
          injection hx.1 with he'
          rw [he']
      | false =>
        rw [hred, h, if_neg (by simp)]
        constructor
        · intro he
          cases he
        · intro hx
          injection hx.1 with he'
          have h2 := h
          rw [he', hx.2] at h2
          cases h2
    | error e =>
      constructor
      · intro he
        cases he
      · intro hx
        cases hx.1
  · intro out he hs
    subst he
    have hred : handle_output (.ok out) args =
        if out.status.success = true then .ok out
        else .error ⟨.executionError out, args⟩ := rfl
    rw [hred, hs, if_neg (by simp)]
  · intro e he
    subst he
    rfl

/-- Witness for C7 at a concrete output. -/
theorem C7_handle_output_spec_witness :
    handle_output (.ok ⟨⟨some 1⟩, "out", "err"⟩) ["podman", "create"]
      = .error ⟨.executionError ⟨⟨some 1⟩, "out", "err"⟩, ["podman", "create"]⟩ :=
  (C7_handle_output_spec (.ok ⟨⟨some 1⟩, "out", "err"⟩) ["podman", "create"]).2.1
    ⟨⟨some 1⟩, "out", "err"⟩ rfl (by decide)

/-- Claim C8: the pilot process exit code is the failed subprocess's exit code
truncated to one byte when the error is a non-zero-exit command error whose
status carries a code; every other error kind reports the generic failure
code. -/
theorem C8_exit_code_forwarding :
    (∀ (out : Output) (args : List String) (c : Int), out.status.code = some c →
      (FlakeError.commandError ⟨.executionError out, args⟩).report = (c.emod 256).toNat)
    ∧ (∀ (out : Output) (args : List String), out.status.code = none →
      (FlakeError.commandError ⟨.executionError out, args⟩).report = exitFailure)
    ∧ (∀ (m : String) (args : List String),
      (FlakeError.commandError ⟨.osError m, args⟩).report = exitFailure)
    ∧ (∀ m, (FlakeError.ioError m).report = exitFailure)
    ∧ (∀ m, (FlakeError.malformedJson m).report = exitFailure)
    ∧ FlakeError.alreadyRunning.report = exitFailure
    ∧ (FlakeError.operationError .maxTriesExceeded).report = exitFailure := by
  refine ⟨?_, ?_, ?_, ?_, ?_, rfl, rfl⟩
  · intro out args c hc
    simp [FlakeError.report, hc]
  · intro out args hc
    simp [FlakeError.report, hc]
  · intro m args; rfl
  · intro m; rfl
  · intro m; rfl

/-- Witness for C8: exit code 300 is forwarded truncated to one byte (44). -/
theorem C8_exit_code_forwarding_witness :
    (FlakeError.commandError ⟨.executionError ⟨⟨some 300⟩, "", ""⟩, ["podman"]⟩).report
      = 44 :=
  C8_exit_code_forwarding.1 ⟨⟨some 300⟩, "", ""⟩ ["podman"] 300 rfl

/-- Claim C10: a command-line token beginning with a percent sign maps, when it
contains a colon, the substring before the last colon to the substring after
it, and otherwise the whole token to the empty string; tokens not beginning
with a percent sign never enter the option map. -/
theorem C10_pilot_option_tokenization (arg : String) :
    (startsWithChar '%' arg = false → pilotOptionEntry arg = none)
    ∧ (startsWithChar '%' arg = true →
      ((':' ∉ arg.data → pilotOptionEntry arg = some (arg, ""))
       ∧ (':' ∈ arg.data → ∃ n v : String, pilotOptionEntry arg = some (n, v)
          ∧ arg.data = n.data ++ ':' :: v.data ∧ ':' ∉ v.data)))
    ∧ (∀ (args : List String) (k v : String), (k, v) ∈ get_pilot_run_options args →
      ∃ a ∈ args, pilotOptionEntry a = some (k, v)) := by
  refine ⟨?_, ?_, mem_get_pilot_run_options⟩
  · intro h
    simp [pilotOptionEntry, h]
  · intro h
    constructor
    · intro hn
      have hsplit : rsplitOnce ':' arg.data = none := (rsplitOnce_none ':' arg.data).mpr hn
      simp [pilotOptionEntry, h, hsplit]
    · intro hmem
      cases hsplit : rsplitOnce ':' arg.data with
      | none => exact absurd hmem ((rsplitOnce_none ':' arg.data).mp hsplit)
      | some p =>
        obtain ⟨l, r⟩ := p
        obtain ⟨hdecomp, hnr⟩ := rsplitOnce_some ':' arg.data l r hsplit
        have hl : l ≠ [] := by
          intro hl0
          subst hl0
          unfold startsWithChar at h
          rw [hdecomp] at h
          simp at h
        refine ⟨⟨l⟩, ⟨r⟩, ?_, by simpa using hdecomp, hnr⟩
        simp [pilotOptionEntry, h, hsplit, hl]

/-- Witness for C10 at the concrete tokens named in the claim. -/
theorem C10_pilot_option_tokenization_witness :
    pilotOptionEntry "%silent" = some ("%silent", "")
    ∧ pilotOptionEntry "hello" = none := by
  constructor
  · exact ((C10_pilot_option_tokenization "%silent").2.1 (by decide)).1 (by decide)
  · exact (C10_pilot_option_tokenization "hello").1 (by decide)

/-- Claim C4: when the ID file exists, the referenced instance is alive and
neither resume nor attach is configured, create decides AlreadyRunning and
does not create a new instance; when the ID file exists but the instance is
dead, the stale file is removed and creation proceeds; when alive and resume
(or, for containers, attach) is set, the existing instance is reused. -/
theorem C4_already_running_gate :
    (∀ (w : IdFileWorld) (resume attach : Bool),
      w.idFileExists = true → w.alive w.idContent = true →
      resume = false → attach = false →
      podman_create_decision w resume attach = (.alreadyRunning, true))
    ∧ (∀ (w : IdFileWorld) (resume attach : Bool),
      w.idFileExists = true → w.alive w.idContent = false →
      podman_create_decision w resume attach = (.createNew, false))
    ∧ (∀ (w : IdFileWorld) (resume attach : Bool),
      w.idFileExists = true → w.alive w.idContent = true →
      (resume = true ∨ attach = true) →
      podman_create_decision w resume attach = (.reuse w.idContent, true))
    ∧ (∀ (w : IdFileWorld) (resume : Bool),
      w.idFileExists = true → vm_running w.alive w.idContent = true →
      resume = false →
      firecracker_create_decision w resume = (.alreadyRunning, true))
    ∧ (∀ (w : IdFileWorld) (resume : Bool),
      w.idFileExists = true → vm_running w.alive w.idContent = false →
      firecracker_create_decision w resume = (.createNew, false))
    ∧ (∀ (w : IdFileWorld) (resume : Bool),
      w.idFileExists = true → vm_running w.alive w.idContent = true →
      resume = true →
      firecracker_create_decision w resume = (.reuse w.idContent, true)) := by
  refine ⟨?_, ?_, ?_, ?_, ?_, ?_⟩
  · intro w resume attach hex halive hr ha
    subst hr
    subst ha
    simp [podman_create_decision, gc_cid_file, hex, halive]
  · intro w resume attach hex halive
    simp [podman_create_decision, gc_cid_file, hex, halive]
  · intro w resume attach hex halive hmode
    rcases hmode with hr | ha
    · subst hr
      simp [podman_create_decision, gc_cid_file, hex, halive]
    · subst ha
      simp [podman_create_decision, gc_cid_file, hex, halive]
  · intro w resume hex hrun hr
    subst hr
    simp [firecracker_create_decision, gc_meta_files_status, hex, hrun]
  · intro w resume hex hrun
    simp [firecracker_create_decision, gc_meta_files_status, hex, hrun]
  · intro w resume hex hrun hr
    subst hr
    simp [firecracker_create_decision, gc_meta_files_status, hex, hrun]

/-- Witness for C4 at concrete worlds: an alive container without
resume/attach yields AlreadyRunning; a dead VM reference is removed and
creation proceeds. -/
theorem C4_already_running_gate_witness :
    podman_create_decision ⟨true, "c1", fun _ => true⟩ false false
      = (.alreadyRunning, true)
    ∧ firecracker_create_decision ⟨true, "123", fun _ => false⟩ true
      = (.createNew, false) :=
  ⟨C4_already_running_gate.1 ⟨true, "c1", fun _ => true⟩ false false rfl rfl rfl rfl,
   C4_already_running_gate.2.2.2.2.1 ⟨true, "123", fun _ => false⟩ true rfl rfl⟩

/-- Claim C9 counterexample: in vsock mode with debug enabled, a console=
boot option from the configuration is NOT replaced by an empty console=
entry, contradicting the claim's unconditional replacement in vsock mode. -/
theorem C9_counterexample :
    "console=ttyS0" ∈ bootArgsVec true false true false ["console=ttyS0"]
    ∧ "console=" ∉ bootArgsVec true false true false ["console=ttyS0"] := by
  constructor
  · decide
  · decide

/-- Claim C9 as amended: the boot-args string consists of the template base
args, plus PILOT_DEBUG=1 when debug is enabled, plus overlay_root=/dev/vdb
when an overlay drive is configured, plus the configured boot options, and
ends with run=vsock when resume or force_vsock is set and with the quoted
run commandline otherwise; in vsock mode, when debug is NOT enabled, every
console= boot option from the configuration is replaced by an empty
console= entry (non-console options pass through unchanged). -/
theorem C9_boot_args (template : String) (debug overlay resume fv : Bool)
    (cfg_boot_args runCmd : List String) :
    ((resume || fv) = true → debug = false →
      (∀ t ∈ bootArgsVec debug overlay resume fv cfg_boot_args,
          strStartsWith "console=" t = true → t = "console=")
      ∧ (∀ b ∈ cfg_boot_args, strStartsWith "console=" b = true →
          "console=" ∈ bootArgsVec debug overlay resume fv cfg_boot_args))
    ∧ (debug = true →
        "PILOT_DEBUG=1" ∈ bootArgsVec debug overlay resume fv cfg_boot_args)
    ∧ (overlay = true →
        "overlay_root=/dev/vdb"
          ∈ bootArgsVec debug overlay resume fv cfg_boot_args)
    ∧ (∀ b ∈ cfg_boot_args, strStartsWith "console=" b = false →
        b ∈ bootArgsVec debug overlay resume fv cfg_boot_args)
    ∧ ((resume || fv) = true → ∃ p,
        firecracker_boot_args template debug overlay resume fv
          cfg_boot_args runCmd = p ++ " run=vsock")
    ∧ ((resume || fv) = false → ∃ p,
        firecracker_boot_args template debug overlay resume fv
          cfg_boot_args runCmd
          = p ++ (" run=\"" ++ strIntercalate " " runCmd ++ "\"")) := by
  refine ⟨?_, ?_, ?_, ?_, ?_, ?_⟩
  · intro hv hd
    subst hd
    constructor
    · intro t ht hstart
      simp only [bootArgsVec, Bool.false_eq_true, if_false, List.nil_append,
        List.mem_append, List.mem_map] at ht
      rcases ht with ht | ht
      · by_cases ho : overlay = true
        · rw [if_pos ho] at ht
          rw [List.mem_singleton] at ht
          subst ht
          exact absurd hstart (by decide)
        · rw [if_neg ho] at ht
          cases ht
      · obtain ⟨b, _, hb⟩ := ht
        subst hb
        unfold processBootOption at hstart ⊢
        by_cases hc : strStartsWith "console=" b = true
        · rw [if_pos (by rw [hv, hc]; rfl)]
        · have hc' : strStartsWith "console=" b = false := by
            simpa using hc
          rw [if_neg (by rw [hc']; simp)] at hstart
          rw [if_neg (by rw [hc']; simp)]
          exact absurd hstart hc
    · intro b hb hstart
      unfold bootArgsVec
      apply List.mem_append_right
      apply List.mem_map.mpr
      refine ⟨b, hb, ?_⟩
      unfold processBootOption
      rw [if_pos (by rw [hv, hstart]; rfl)]
  · intro hd
    subst hd
    simp [bootArgsVec]
  · intro ho
    subst ho
    simp [bootArgsVec]
  · intro b hb hstart
    unfold bootArgsVec
    apply List.mem_append_right
    apply List.mem_map.mpr
    refine ⟨b, hb, ?_⟩
    unfold processBootOption
    rw [if_neg (by rw [hstart]; simp)]
  · intro hv
    refine ⟨(if template = "" then template else template ++ " ")
      ++ strIntercalate " " (bootArgsVec debug overlay resume fv cfg_boot_args),
      ?_⟩
    unfold firecracker_boot_args
    rw [hv]
    simp
  · intro hv
    refine ⟨(if template = "" then template else template ++ " ")
      ++ strIntercalate " " (bootArgsVec debug overlay resume fv cfg_boot_args),
      ?_⟩
    unfold firecracker_boot_args
    rw [hv]
    simp

/-- Witness for the amended C9 at concrete inputs: in non-debug vsock mode
the console option is emptied, the overlay root is injected, and the string
ends with run=vsock. -/
theorem C9_boot_args_witness :
    (∀ t ∈ bootArgsVec false true true false ["console=ttyS0", "root=/dev/vda"],
      strStartsWith "console=" t = true → t = "console=")
    ∧ "overlay_root=/dev/vdb"
        ∈ bootArgsVec false true true false ["console=ttyS0", "root=/dev/vda"]
    ∧ (∃ p, firecracker_boot_args "i8042.nokbd" false true true false
        ["console=ttyS0"] ["/usr/bin/app"] = p ++ " run=vsock") :=
  ⟨((C9_boot_args "i8042.nokbd" false true true false
      ["console=ttyS0", "root=/dev/vda"] ["/usr/bin/app"]).1 rfl rfl).1,
   (C9_boot_args "i8042.nokbd" false true true false
      ["console=ttyS0", "root=/dev/vda"] ["/usr/bin/app"]).2.2.1 rfl,
   (C9_boot_args "i8042.nokbd" false true true false
      ["console=ttyS0"] ["/usr/bin/app"]).2.2.2.2.1 rfl⟩

/-- Claim C5 counterexample: a directory of 21 dead ID files triggers
collective GC, which removes every ID file but leaves the dead instance's
own socket (here /run/sci_cmd_other.sock for the ID file other.vmid)
untouched, because gc_meta_files deletes the socket of the INVOKING
identity (here prog); the overlay image is also never removed by the
collective pass. -/
theorem C5_counterexample :
    (fun g : VmFs => (g.idsDir, g.sockets, g.overlays))
      (gc_fs "prog" []
        ⟨[("other.vmid", "7"), ("a", "1"), ("b", "1"), ("c", "1"), ("d", "1"),
          ("e", "1"), ("f", "1"), ("g", "1"), ("h", "1"), ("i", "1"),
          ("j", "1"), ("k", "1"), ("l", "1"), ("m", "1"), ("n", "1"),
          ("o", "1"), ("p", "1"), ("q", "1"), ("r", "1"), ("s", "1"),
          ("t", "1")],
         ["/run/sci_cmd_other.sock"],
         ["/var/lib/firecracker/storage/other.ext2"],
         fun _ => false⟩)
      = ([], ["/run/sci_cmd_other.sock"],
         ["/var/lib/firecracker/storage/other.ext2"]) := by
  rfl

/-- Claim C5 as amended: collective GC runs exactly when the ID-file
directory holds more than 20 entries; it removes the ID file of every dead
instance and keeps every live one; the only socket it can remove is the
INVOKING identity's socket (a foreign dead instance's socket is left
behind); for VMs the collective pass never removes overlay images (it
hard-codes resume), overlay removal happening only in the per-identity GC
during create when the configuration is non-resume; the container collector
behaves likewise on its CID files. -/
theorem C5_garbage_collection (program_name : String) (args : List String) :
    (∀ fs : VmFs, fs.idsDir.length ≤ GC_THRESHOLD →
      gc_fs program_name args fs = fs)
    ∧ (∀ (fs : VmFs) (f c : String),
        GC_THRESHOLD < fs.idsDir.length →
        (fs.idsDir.map (fun q => q.1)).Nodup → (f, c) ∈ fs.idsDir →
        vm_running fs.running c = false →
        ∀ x ∈ (gc_fs program_name args fs).idsDir, x.1 ≠ f)
    ∧ (∀ (fs : VmFs) (f c : String),
        (fs.idsDir.map (fun q => q.1)).Nodup → (f, c) ∈ fs.idsDir →
        vm_running fs.running c = true →
        (f, c) ∈ (gc_fs program_name args fs).idsDir)
    ∧ (∀ (fs : VmFs) (s : String), s ∈ fs.sockets →
        s ≠ vsock_uds_path program_name args →
        s ∈ (gc_fs program_name args fs).sockets)
    ∧ (∀ fs : VmFs, (gc_fs program_name args fs).overlays = fs.overlays)
    ∧ (∀ (fs : VmFs) (f vmid : String), readIdFile fs f = some vmid →
        vm_running fs.running vmid = false →
        vm_overlay_path_of_id_file f ∈ fs.overlays →
        vm_overlay_path_of_id_file f
          ∉ ((gc_meta_files_fs program_name args false fs f).1).overlays)
    ∧ (∀ cfs : CidFs, cfs.idsDir.length ≤ GC_THRESHOLD →
        podman_gc_fs cfs = cfs)
    ∧ (∀ (cfs : CidFs) (f c : String),
        GC_THRESHOLD < cfs.idsDir.length →
        (cfs.idsDir.map (fun q => q.1)).Nodup → (f, c) ∈ cfs.idsDir →
        cfs.containerExists c = false →
        ∀ x ∈ (podman_gc_fs cfs).idsDir, x.1 ≠ f)
    ∧ (∀ (cfs : CidFs) (f c : String),
        (cfs.idsDir.map (fun q => q.1)).Nodup → (f, c) ∈ cfs.idsDir →
        cfs.containerExists c = true →
        (f, c) ∈ (podman_gc_fs cfs).idsDir) := by
  refine ⟨gc_fs_not_triggered program_name args,
    ?_, ?_, ?_, ?_, ?_, podman_gc_not_triggered, ?_, ?_⟩
  · intro fs f c htrig hnd hmem hdead x hx
    rw [gc_fs_triggered program_name args fs htrig] at hx
    exact gc_fold_dead_removed program_name args _ fs f c
      (nodup_keys_unique fs.idsDir f c hnd hmem) hdead
      (by simpa using List.mem_map_of_mem (fun q : String × String => q.1) hmem)
      x hx
  · intro fs f c hnd hmem hlive
    by_cases htrig : fs.idsDir.length ≤ GC_THRESHOLD
    · rw [gc_fs_not_triggered program_name args fs htrig]
      exact hmem
    · rw [gc_fs_triggered program_name args fs (by omega)]
      exact gc_fold_live_kept program_name args _ fs f c
        (nodup_keys_unique fs.idsDir f c hnd hmem) hlive hmem
  · intro fs s hs hne
    by_cases htrig : fs.idsDir.length ≤ GC_THRESHOLD
    · rw [gc_fs_not_triggered program_name args fs htrig]
      exact hs
    · rw [gc_fs_triggered program_name args fs (by omega)]
      exact gc_fold_sockets program_name args _ fs s hs hne
  · intro fs
    by_cases htrig : fs.idsDir.length ≤ GC_THRESHOLD
    · rw [gc_fs_not_triggered program_name args fs htrig]
    · rw [gc_fs_triggered program_name args fs (by omega)]
      exact gc_fold_overlays program_name args _ fs
  · intro fs f vmid hread hdead hovl
    rw [gc_step_dead hread hdead]
    show vm_overlay_path_of_id_file f ∉
      (if vm_overlay_path_of_id_file f ∈ fs.overlays ∧ false = false then
        fs.overlays.filter (fun s => ¬(s = vm_overlay_path_of_id_file f))
      else
        fs.overlays)
    rw [if_pos ⟨hovl, rfl⟩]
    intro hmem'
    have := (List.mem_filter.mp hmem').2
    simp at this
  · intro cfs f c htrig hnd hmem hdead x hx
    rw [podman_gc_triggered cfs htrig] at hx
    exact cid_fold_dead_removed _ cfs f c
      (nodup_keys_unique cfs.idsDir f c hnd hmem) hdead
      (by simpa using List.mem_map_of_mem (fun q : String × String => q.1) hmem)
      x hx
  · intro cfs f c hnd hmem hlive
    by_cases htrig : cfs.idsDir.length ≤ GC_THRESHOLD
    · rw [podman_gc_not_triggered cfs htrig]
      exact hmem
    · rw [podman_gc_triggered cfs (by omega)]
      exact cid_fold_live_kept _ cfs f c
        (nodup_keys_unique cfs.idsDir f c hnd hmem) hlive hmem

/-- Witness for the amended C5: in a triggered collective GC over 21 entries,
the live instance's ID file survives. -/
theorem C5_garbage_collection_witness :
    ("live.vmid", "9") ∈ (gc_fs "prog" []
      ⟨[("live.vmid", "9"), ("a", "1"), ("b", "1"), ("c", "1"), ("d", "1"),
        ("e", "1"), ("f", "1"), ("g", "1"), ("h", "1"), ("i", "1"),
        ("j", "1"), ("k", "1"), ("l", "1"), ("m", "1"), ("n", "1"),
        ("o", "1"), ("p", "1"), ("q", "1"), ("r", "1"), ("s", "1"),
        ("t", "1")],
       [], [], fun s => s = "9"⟩).idsDir :=
  (C5_garbage_collection "prog" []).2.2.1
    ⟨[("live.vmid", "9"), ("a", "1"), ("b", "1"), ("c", "1"), ("d", "1"),
      ("e", "1"), ("f", "1"), ("g", "1"), ("h", "1"), ("i", "1"),
      ("j", "1"), ("k", "1"), ("l", "1"), ("m", "1"), ("n", "1"),
      ("o", "1"), ("p", "1"), ("q", "1"), ("r", "1"), ("s", "1"),
      ("t", "1")],
     [], [], fun s => s = "9"⟩ "live.vmid" "9" (by decide) (by decide) (by decide)

/-- Claim C1 counterexample: in the VM create path, when mounting the
overlay device fails after the rootfs image was mounted, run_creation
returns the error with the image mount STILL HELD under the temporary
directory and the partial ID file (content 0) STILL PRESENT. -/
theorem C1_counterexample :
    run_creation ⟨true, true, true, true, false, true, true, true, true, true⟩
      ⟨false, true, false, false⟩ "/tmp/flakes/app.vmid"
      = (⟨some "0", ["image"]⟩, .error .mountOverlayFailed) := by
  rfl

/-- Claim C1 as amended: provisioning cleanup on failure is partial. In the
VM path the partial ID file written at the start is never removed by
run_creation on any outcome; the fully successful path releases all mounts,
but a failure of the overlay mount leaves the image mount held, and a
failure of the include sync leaves all three mounts held. In the container
path the CID file written by podman create is never removed by
run_podman_creation on any outcome; a failure to mount the instance removes
the created container; a system-dependency failure (not ignored) and an
include failure unmount the instance and remove the container before the
error is returned; but a removed-file read failure returns with the
instance mount still held and the container still in place. -/
theorem C1_provisioning_atomicity :
    (∀ (o : FOracle) (cfg : FCfg) (vmf : String), o.idWriteOk = true →
      ((run_creation o cfg vmf).1).idFile = some "0")
    ∧ (∀ (o : FOracle) (cfg : FCfg) (vmf : String),
        o.idWriteOk = true → o.overlayWriteOk = true → o.mkfsOk = true →
        o.mountImageOk = true → o.mountOverlayOk = true →
        o.mountOverlayFsOk = true → o.includesOk = true →
        o.umountRootOk = true → o.umountOverlayOk = true →
        o.umountImageOk = true →
        run_creation o cfg vmf = (⟨some "0", []⟩, .ok ("0", vmf)))
    ∧ (∀ (o : FOracle) (vmf : String),
        o.idWriteOk = true → o.overlayWriteOk = true → o.mkfsOk = true →
        o.mountImageOk = true → o.mountOverlayOk = false →
        run_creation o ⟨false, true, false, false⟩ vmf
          = (⟨some "0", [IMAGE_ROOT]⟩, .error .mountOverlayFailed))
    ∧ (∀ (o : FOracle) (vmf : String),
        o.idWriteOk = true → o.overlayWriteOk = true → o.mkfsOk = true →
        o.mountImageOk = true → o.mountOverlayOk = true →
        o.mountOverlayFsOk = true → o.includesOk = false →
        run_creation o ⟨false, true, false, true⟩ vmf
          = (⟨some "0", [IMAGE_ROOT, IMAGE_OVERLAY, OVERLAY_ROOT]⟩,
             .error .includesFailed))
    ∧ (∀ (o : POracle) (cfg : PodmanCfg), o.createOk = true →
        ((run_podman_creation o cfg).1).cidFilePresent = true)
    ∧ (∀ (o : POracle) (cfg : PodmanCfg),
        o.createOk = true →
        (cfg.is_delta || cfg.check_host_dependencies) = true →
        o.mountInstanceOk = false → o.rmOk = true →
        run_podman_creation o cfg
          = (⟨[], false, true⟩, .error .mountInstanceFailed))
    ∧ (∀ (o : POracle) (cfg : PodmanCfg),
        o.createOk = true →
        (cfg.is_delta || cfg.check_host_dependencies) = true →
        o.mountInstanceOk = true →
        (o.sysdepsBuildOk && o.sysdepsSyncOk) = false →
        cfg.ignore_sync_error = false →
        o.umountInstanceOk = true → o.rmOk = true →
        run_podman_creation o cfg = (⟨[], false, true⟩, .error .sysdepsFailed))
    ∧ (∀ (o : POracle) (cfg : PodmanCfg),
        o.createOk = true →
        (cfg.is_delta || cfg.check_host_dependencies) = true →
        o.mountInstanceOk = true →
        (o.sysdepsBuildOk && o.sysdepsSyncOk) = true →
        o.removedReadOk = false →
        run_podman_creation o cfg
          = (⟨[instanceMountName o.cid], true, true⟩,
             .error .removedReadFailed))
    ∧ (∀ (o : POracle) (layers : List String) (nm : String),
        o.createOk = true → o.mountInstanceOk = true →
        (o.sysdepsBuildOk && o.sysdepsSyncOk) = true →
        o.removedReadOk = true → o.removedSyncOk = true →
        o.includesOk = false → o.umountInstanceOk = true → o.rmOk = true →
        run_podman_creation o ⟨false, true, true, false, layers, nm⟩
          = (⟨[], false, true⟩, .error .includesFailed)) := by
  refine ⟨?_, ?_, ?_, ?_, ?_, ?_, ?_, ?_, ?_⟩
  · intro o cfg vmf h
    unfold run_creation
    rw [h]
    simp only [Bool.not_true, Bool.false_eq_true, if_false]
    split
    · rfl
    · cases hov : cfg.overlay_size_configured with
      | false => simp [hov]
      | true =>
        simp only [hov, if_true]
        cases hmv : mount_vm o ⟨some "0", []⟩ with
        | mk st2 me =>
          have hid2 : st2.idFile = some "0" := by
            have := mount_vm_idFile o ⟨some "0", []⟩
            rw [hmv] at this
            exact this
          cases me with
          | some e => simp [hmv, hid2]
          | none =>
            simp only [hmv]
            by_cases hin : (cfg.has_includes && !o.includesOk) = true
            · simp [hin, hid2]
            · simp only [hin, Bool.false_eq_true, if_neg, if_false]
              cases hum : umount_vm o st2 with
              | mk st3 ue =>
                have hid3 : st3.idFile = some "0" := by
                  have := umount_vm_idFile o st2
                  rw [hum] at this
                  rw [this, hid2]
                cases ue with
                | some e => simp [hum, hid3]
                | none => simp [hum, hid3]
  · intro o cfg vmf h1 h2 h3 h4 h5 h6 h7 h8 h9 h10
    cases hov : cfg.overlay_size_configured <;>
      cases hex : cfg.overlay_exists <;>
      cases hres : cfg.resume <;>
      cases hinc : cfg.has_includes <;>
      simp [run_creation, mount_vm, umount_vm, IMAGE_ROOT, IMAGE_OVERLAY,
        OVERLAY_ROOT, h1, h2, h3, h4, h5, h6, h7, h8, h9, h10, hov, hex,
        hres, hinc]
  · intro o vmf h1 h2 h3 h4 h5
    simp [run_creation, mount_vm, h1, h2, h3, h4, h5]
  · intro o vmf h1 h2 h3 h4 h5 h6 h7
    simp [run_creation, mount_vm, h1, h2, h3, h4, h5, h6, h7]
  · intro o cfg h
    unfold run_podman_creation
    rw [h]
    simp only [Bool.not_true, Bool.false_eq_true, if_false]
    by_cases hblock : (cfg.is_delta || cfg.check_host_dependencies) = true
    · simp only [hblock, if_true]
      cases hm : o.mountInstanceOk with
      | false =>
        cases hr : o.rmOk with
        | false => simp [hm, hr]
        | true => simp [hm, hr]
      | true =>
        simp only [hm, Bool.not_true, Bool.false_eq_true, if_false]
        by_cases hsys : (!(o.sysdepsBuildOk && o.sysdepsSyncOk)
            && !cfg.ignore_sync_error) = true
        · simp only [hsys, if_true]
          rw [podman_finish_cid]
        · simp only [hsys, Bool.false_eq_true, if_false]
          cases hrr : o.removedReadOk with
          | false => simp [hrr]
          | true =>
            cases hrs : o.removedSyncOk with
            | false => simp [hrr, hrs]
            | true =>
              simp only [hrr, hrs, Bool.not_true, Bool.false_eq_true,
                if_false]
              cases hloop : (if cfg.is_delta then
                  podman_layer_loop o (cfg.layers ++ [cfg.name])
                    ⟨[instanceMountName o.cid], true, true⟩
                else
                  (⟨[instanceMountName o.cid], true, true⟩, none)) with
              | mk st3 le =>
                have hcid3 : st3.cidFilePresent = true := by
                  by_cases hd : cfg.is_delta = true
                  · rw [if_pos hd] at hloop
                    have := podman_layer_loop_cid o (cfg.layers ++ [cfg.name])
                      ⟨[instanceMountName o.cid], true, true⟩
                    rw [hloop] at this
                    exact this
                  · rw [if_neg hd] at hloop
                    injection hloop with hst _
                    rw [← hst]
                cases le with
                | some e => simp [hloop, hcid3]
                | none =>
                  simp only [hloop]
                  by_cases hlh : (cfg.is_delta && !o.layersHostSyncOk) = true
                  · simp [hlh, hcid3]
                  · simp only [hlh, Bool.false_eq_true, if_false]
                    by_cases hin : (cfg.has_includes && !o.includesOk) = true
                    · simp only [hin, if_true]
                      rw [podman_finish_cid]
                      exact hcid3
                    · simp only [hin, Bool.false_eq_true, if_false]
                      rw [podman_finish_cid]
                      exact hcid3
    · simp only [hblock, Bool.false_eq_true, if_false]
  · intro o cfg h1 h2 h3 h4
    simp [run_podman_creation, h1, h2, h3, h4]
  · intro o cfg h1 h2 h3 h4 h5 h6 h7
    simp [run_podman_creation, podman_finish, h1, h2, h3, h4, h5, h6, h7]
  · intro o cfg h1 h2 h3 h4 h5
    simp [run_podman_creation, h1, h2, h3, h4, h5]
  · intro o layers nm h1 h2 h3 h4 h5 h6 h7 h8
    simp [run_podman_creation, podman_finish, h1, h2, h3, h4, h5, h6, h7, h8]

/-- Witness for the amended C1: a concrete system-dependency sync failure
(not ignored) on the container path unmounts the instance and removes the
container, with the CID file left in place. -/
theorem C1_provisioning_atomicity_witness :
    run_podman_creation
      ⟨true, "c1", true, true, false, true, true, true, fun _ => true,
        fun _ => true, fun _ => true, fun _ => true, true, true, true⟩
      ⟨false, true, false, false, [], "app"⟩
      = (⟨[], false, true⟩, .error .sysdepsFailed) :=
  C1_provisioning_atomicity.2.2.2.2.2.2.1
    ⟨true, "c1", true, true, false, true, true, true, fun _ => true,
      fun _ => true, fun _ => true, fun _ => true, true, true, true⟩
    ⟨false, true, false, false, [], "app"⟩
    rfl rfl rfl rfl rfl rfl rfl

end Flakes
